import Mathlib

/-!
# DjangoBlog OAuth subsystem — verification development

A shallow embedding of the third-party identity (OAuth2) subsystem of the
DjangoBlog repository: the account-linking state machine of
`oauth/views.py` (`authorize`, `emailconfirm`, `RequireEmailView.form_valid`,
`get_redirecturl`), the signed confirmation-link verification, and the
token-exchange / profile-normalization layer of `oauth/oauthmanager.py`.

Conventions of the embedding:
* Machine state (the `OAuthUser` and `BlogUser` tables, the session) is an
  explicit `DB` record; each Django view becomes a pure function
  `DB → args → DB × Response`.
* Python falsy string fields (`None` or `''`) are modelled as `""`.
* `django_settings.SECRET_KEY` and `timezone.now().strftime(...)` are threaded
  as explicit parameters (`secret`, `now`).
-/

namespace DjangoBlogSpec

/-! ## String helpers (models of the Python primitives used by the views) -/

/-- Model of Python `str.upper()` restricted to ASCII case mapping, which is
all the views apply it to (hex digests and their URL copies). -/
def strUpper (s : String) : String := ⟨s.data.map Char.toUpper⟩

/-- The lowercase hex digit for a nibble value, i.e. the output alphabet of
`hashlib.sha256(...).hexdigest()`: code points 48–57 for `0`–`9` and 97–102
for `a`–`f`. -/
def hexDigitChar (n : Nat) : Char :=
  if n < 10 then Char.ofNat (48 + n) else Char.ofNat (87 + n)

/-- The six base-16 digits (most significant first) of a character's code
point; every Unicode scalar value fits in six nibbles. -/
def charNibbles (c : Char) : List Nat :=
  let n := c.toNat
  [n / 1048576 % 16, n / 65536 % 16, n / 4096 % 16, n / 256 % 16, n / 16 % 16, n % 16]

/-- Modelled from the spec: `djangoblog/utils.py` (not under `src/`) supplies
`get_sha256`, the "deterministic keyed digest" of §4.4 — a SHA-256 hex digest
of the input string. The model keeps the two properties the spec relies on:
determinism and collision-freeness (idealized here as injectivity, standing in
for SHA-256 collision resistance), and it reproduces the output shape that the
case-insensitive comparison in `emailconfirm` interacts with: a string over
the lowercase hex alphabet `0-9a-f`. Concretely each input character is
expanded to the six lowercase hex digits of its code point. -/
def get_sha256 (s : String) : String :=
  ⟨((s.data.map charNibbles).flatten).map hexDigitChar⟩

theorem charNibbles_length (c : Char) : (charNibbles c).length = 6 := rfl

theorem charNibbles_lt (c : Char) : ∀ x ∈ charNibbles c, x < 16 := by
  intro x hx
  simp only [charNibbles, List.mem_cons, List.not_mem_nil, or_false] at hx
  rcases hx with h | h | h | h | h | h <;> subst h <;> omega

theorem char_toNat_lt (c : Char) : c.toNat < 16777216 := by
  have h := c.valid
  rcases h with h | ⟨_, h⟩ <;> simp [Char.toNat] <;> omega

theorem charNibbles_inj {a b : Char} (h : charNibbles a = charNibbles b) : a = b := by
  have ha := char_toNat_lt a
  have hb := char_toNat_lt b
  simp only [charNibbles, List.cons.injEq, and_true] at h
  have hn : a.toNat = b.toNat := by omega
  have h2 := congrArg Char.ofNat hn
  rwa [Char.ofNat_toNat, Char.ofNat_toNat] at h2

/-- Fixed-width block encodings concatenate injectively. -/
theorem nibbles_join_inj :
    ∀ l₁ l₂ : List Char, (l₁.map charNibbles).flatten = (l₂.map charNibbles).flatten → l₁ = l₂ := by
  intro l₁
  induction l₁ with
  | nil =>
    intro l₂ h
    cases l₂ with
    | nil => rfl
    | cons b t =>
      exfalso
      have := congrArg List.length h
      simp [charNibbles_length] at this
      omega
  | cons a t ih =>
    intro l₂ h
    cases l₂ with
    | nil =>
      exfalso
      have := congrArg List.length h
      simp [charNibbles_length] at this
    | cons b t₂ =>
      simp only [List.map_cons, List.flatten_cons] at h
      have hlen : (charNibbles a).length = (charNibbles b).length := by
        simp [charNibbles_length]
      obtain ⟨h₁, h₂⟩ := List.append_inj h hlen
      rw [charNibbles_inj h₁, ih t₂ h₂]

theorem upper_hexDigitChar_inj :
    ∀ a b : Nat, a < 16 → b < 16 →
      (hexDigitChar a).toUpper = (hexDigitChar b).toUpper → a = b := by
  intro a b ha hb
  interval_cases a <;> interval_cases b <;> decide

theorem upper_hex_map_inj :
    ∀ n₁ n₂ : List Nat, (∀ x ∈ n₁, x < 16) → (∀ x ∈ n₂, x < 16) →
      n₁.map (fun k => (hexDigitChar k).toUpper) = n₂.map (fun k => (hexDigitChar k).toUpper) →
      n₁ = n₂ := by
  intro n₁
  induction n₁ with
  | nil =>
    intro n₂ _ _ h
    cases n₂ with
    | nil => rfl
    | cons b t => simp at h
  | cons a t ih =>
    intro n₂ h₁ h₂ h
    cases n₂ with
    | nil => simp at h
    | cons b t₂ =>
      simp only [List.map_cons, List.cons.injEq] at h
      have hab : a = b :=
        upper_hexDigitChar_inj a b (h₁ a (by simp)) (h₂ b (by simp)) h.1
      have ht : t = t₂ :=
        ih t₂ (fun x hx => h₁ x (by simp [hx])) (fun x hx => h₂ x (by simp [hx])) h.2
      rw [hab, ht]

theorem join_nibbles_lt (l : List Char) : ∀ x ∈ (l.map charNibbles).flatten, x < 16 := by
  intro x hx
  simp only [List.mem_flatten, List.mem_map] at hx
  obtain ⟨blk, ⟨c, _, rfl⟩, hmem⟩ := hx
  exact charNibbles_lt c x hmem

/-- Idealized collision resistance: the upper-cased digest determines the
input. -/
theorem strUpper_get_sha256_inj {s t : String}
    (h : strUpper (get_sha256 s) = strUpper (get_sha256 t)) : s = t := by
  have h' : ((s.data.map charNibbles).flatten).map (fun k => (hexDigitChar k).toUpper)
      = ((t.data.map charNibbles).flatten).map (fun k => (hexDigitChar k).toUpper) := by
    have h0 := congrArg String.data h
    simpa [strUpper, get_sha256, List.map_map, Function.comp] using h0
  have h'' := upper_hex_map_inj _ _ (join_nibbles_lt s.data) (join_nibbles_lt t.data) h'
  exact String.ext (nibbles_join_inj s.data t.data h'')

/-! ## Signed confirmation-link verification (`oauth/views.py`, `emailconfirm`)

`emailconfirm(request, id, sign)` first replies 403 when `sign` is falsy, then
replies 403 unless
`get_sha256(settings.SECRET_KEY + str(id) + settings.SECRET_KEY).upper() == sign.upper()`.
`verifySignStr` is that acceptance check over the string form of the id;
`verifySign` composes it with `str(id)` for the `<int:id>` URL parameter. -/

def verifySignStr (secret idStr sign : String) : Bool :=
  if sign = "" then false
  else strUpper (get_sha256 (secret ++ idStr ++ secret)) == strUpper sign

def verifySign (secret : String) (id : Nat) (sign : String) : Bool :=
  verifySignStr secret (Nat.repr id) sign

/-- Positions at which two equal-length character lists disagree. -/
def diffCount : List Char → List Char → Nat
  | a :: s, b :: t => (if a = b then 0 else 1) + diffCount s t
  | _, _ => 0

/-- `t` is `s` with exactly one character changed (same length, one differing
position) — the mutation the spec's §8 property talks about. -/
def oneCharDiff (s t : String) : Prop :=
  s.data.length = t.data.length ∧ diffCount s.data t.data = 1

instance (s t : String) : Decidable (oneCharDiff s t) := by
  unfold oneCharDiff
  infer_instance

theorem strUpper_data (s : String) : (strUpper s).data = s.data.map Char.toUpper := rfl

theorem strUpper_empty_iff (s : String) : strUpper s = "" ↔ s = "" := by
  constructor
  · intro h
    have := congrArg String.data h
    simp [strUpper_data] at this
    exact String.ext (by simp [this])
  · intro h; rw [h]; rfl

theorem sign_nonempty_of_verify {secret idStr sign : String}
    (h : verifySignStr secret idStr sign = true) : sign ≠ "" := by
  intro hs
  simp [verifySignStr, hs] at h

theorem verify_iff_upper_eq {secret idStr sign : String} (hs : sign ≠ "") :
    verifySignStr secret idStr sign = true ↔
      strUpper (get_sha256 (secret ++ idStr ++ secret)) = strUpper sign := by
  simp [verifySignStr, hs]

/-- The acceptance region of a fixed valid signature: anything equal to it up
to letter case is accepted, and nothing else is. -/
theorem verify_same_upper {secret idStr sign sign' : String}
    (h : verifySignStr secret idStr sign = true) :
    verifySignStr secret idStr sign' = true ↔ strUpper sign' = strUpper sign := by
  have hne := sign_nonempty_of_verify h
  have hd := (verify_iff_upper_eq hne).mp h
  constructor
  · intro h'
    have hne' := sign_nonempty_of_verify h'
    have hd' := (verify_iff_upper_eq hne').mp h'
    rw [← hd', hd]
  · intro hu
    have hne' : sign' ≠ "" := by
      intro hc
      rw [hc] at hu
      exact hne ((strUpper_empty_iff sign).mp (by rw [← hu]; rfl))
    exact (verify_iff_upper_eq hne').mpr (by rw [hd, hu])

/-- A valid signature for one id string is rejected for every other id
string (idealized collision resistance of the digest). -/
theorem verify_other_id {secret idStr idStr' sign : String}
    (h : verifySignStr secret idStr sign = true) (hne : idStr' ≠ idStr) :
    verifySignStr secret idStr' sign = false := by
  by_contra hc
  have h' : verifySignStr secret idStr' sign = true := by
    cases hb : verifySignStr secret idStr' sign
    · exact absurd hb hc
    · rfl
  have h1 := (verify_iff_upper_eq (sign_nonempty_of_verify h)).mp h
  have h2 := (verify_iff_upper_eq (sign_nonempty_of_verify h')).mp h'
  have heq : secret ++ idStr' ++ secret = secret ++ idStr ++ secret :=
    strUpper_get_sha256_inj (by rw [h1, h2])
  have hl := congrArg String.data heq
  simp only [String.data_append, List.append_assoc] at hl
  have hl1 := List.append_cancel_left hl
  have hl2 := List.append_cancel_right hl1
  exact hne (String.ext hl2)

/-- `str(id)` of a natural number is never the empty string. -/
theorem repr_ne_empty (n : Nat) : Nat.repr n ≠ "" := by
  have h : 0 < (Nat.toDigits 10 n).length := by
    show 0 < (Nat.toDigitsCore 10 (n + 1) n []).length
    simp only [Nat.toDigitsCore]
    by_cases h10 : n / 10 = 0
    · simp [h10]
    · simp [h10, Nat.toDigitsCore_lens_eq]
  intro hc
  have := congrArg String.data hc
  simp only [Nat.repr, List.asString] at this
  rw [this] at h
  simp at h

/-! ## Data model (`oauth/models.py` `OAuthUser`, `accounts/models.py` `BlogUser`) -/

/-- A persisted `OAuthUser` row. `author_id` is the nullable FK to the local
account; the string fields use `""` for Python `None`/`''`. -/
structure OAuthUserRec where
  id : Nat
  type : String
  openid : String
  nickname : String
  token : String
  picture : String
  email : String
  metadata : String
  author_id : Option Nat
deriving DecidableEq, Repr

/-- A persisted `BlogUser` row (the fields the oauth views touch). -/
structure BlogUserRec where
  id : Nat
  username : String
  email : String
  source : String
deriving DecidableEq, Repr

/-- The database tables the oauth views read and write, plus the session.
`nextOauthId`/`nextUserId` model autoincrement primary keys. -/
structure DB where
  oauthUsers : List OAuthUserRec
  users : List BlogUserRec
  nextOauthId : Nat
  nextUserId : Nat
  sessionUser : Option Nat
deriving DecidableEq, Repr

def DB.empty : DB :=
  { oauthUsers := [], users := [], nextOauthId := 1, nextUserId := 1, sessionUser := none }

/-- The unsaved `OAuthUser()` instance a manager's `get_oauth_userinfo` builds:
the canonical profile handed to `authorize`. `type` is the manager's
`ICON_NAME`, which every adapter writes into the instance. -/
structure Profile where
  type : String
  openid : String
  nickname : String
  token : String
  picture : String
  email : String
  metadata : String
deriving DecidableEq, Repr

/-- The observable replies of the oauth views. -/
inductive Response
  | redirect (url : String)
  | forbidden
  | notFound
  | serverError
deriving DecidableEq, Repr

/-- Outcome of `manager.get_access_token_by_code(code)` as `authorize` sees it:
`tokenError` is a raised `OAuthAccessTokenException`; `failed` is a falsy
return or any other exception (both leave `rsp` falsy); `ok` is a truthy
return. -/
inductive ExchangeResult
  | tokenError
  | failed
  | ok
deriving DecidableEq, Repr

def findUserById (db : DB) (id : Nat) : Option BlogUserRec :=
  db.users.find? (fun u => u.id == id)

def findUserByEmail (db : DB) (email : String) : Option BlogUserRec :=
  db.users.find? (fun u => u.email == email)

def usernameTaken (db : DB) (name : String) : Bool :=
  db.users.any (fun u => u.username == name)

/-- `OAuthUser.save()`: insert under a fresh primary key when the instance is
new, else update the row carrying the same `id`. Returns the saved id. -/
def saveOauthUser (db : DB) (r : OAuthUserRec) (isNew : Bool) : DB × Nat :=
  if isNew then
    ({ db with
        oauthUsers := db.oauthUsers ++ [{ r with id := db.nextOauthId }],
        nextOauthId := db.nextOauthId + 1 },
     db.nextOauthId)
  else
    ({ db with oauthUsers := db.oauthUsers.map (fun x => if x.id == r.id then r else x) },
     r.id)

/-- `login(request, author)`: record the session user. -/
def withSession (db : DB) (s : Option Nat) : DB := { db with sessionUser := s }

/-- `user.author = author`: point the identity row at an account. -/
def linkTo (r : OAuthUserRec) (aid : Nat) : OAuthUserRec := { r with author_id := some aid }

/-! ## `authorize` (`oauth/views.py`) -/

/-- `OAuthUser.objects.get(type=type, openid=user.openid)` (under the
at-most-one-row-per-pair invariant, `get` and `find?` agree). -/
def findByPair (db : DB) (t o : String) : Option OAuthUserRec :=
  db.oauthUsers.find? (fun r => r.type == t && r.openid == o)

def rowById (db : DB) (i : Nat) : Option OAuthUserRec :=
  db.oauthUsers.find? (fun r => r.id == i)

/-- The upsert target of `authorize`: refresh
`picture`/`metadata`/`nickname` on the found row, else keep the freshly
fetched instance (whose `id` is assigned at save). -/
def mergeProfile (found : Option OAuthUserRec) (p : Profile) (nickname : String) :
    OAuthUserRec × Bool :=
  match found with
  | some temp =>
    ({ temp with picture := p.picture, metadata := p.metadata, nickname := nickname }, false)
  | none =>
    ({ id := 0, type := p.type, openid := p.openid, nickname := nickname,
       token := p.token, picture := p.picture, email := p.email,
       metadata := p.metadata, author_id := none }, true)

/-- The account-resolution block of `authorize`'s transaction: take the
already linked account when `user.author_id` designates one, else
`get_or_create` by email, assigning a collision-free username to a created
account. Returns the (possibly grown) state and the resolved account. -/
def resolveAuthorAuthorize (db : DB) (user : OAuthUserRec) (nickname now : String) :
    DB × BlogUserRec :=
  match user.author_id.bind (fun aid => findUserById db aid) with
  | some a => (db, a)
  | none =>
    match findUserByEmail db user.email with
    | some a => (db, a)
    | none =>
      let uname := if usernameTaken db nickname then "djangoblog" ++ now else nickname
      let newUser : BlogUserRec :=
        { id := db.nextUserId, username := uname, email := user.email,
          source := "authorize" }
      ({ db with users := db.users ++ [newUser], nextUserId := db.nextUserId + 1 },
       newUser)

/-- Python `str.strip()`: drop leading and trailing whitespace. -/
def pyStrip (s : String) : String :=
  ⟨((s.data.dropWhile Char.isWhitespace).reverse.dropWhile Char.isWhitespace).reverse⟩

/-- The nickname fixup at the top of `authorize`'s profile handling:
`if not user.nickname or not user.nickname.strip(): user.nickname =
"djangoblog" + timezone.now().strftime(...)`. -/
def fixNickname (p : Profile) (now : String) : String :=
  if pyStrip p.nickname = "" then "djangoblog" ++ now else p.nickname

/-- The record `authorize` is about to save (and whether it is new): the
merged upsert target plus the Facebook token special case. -/
def upsertUser (db : DB) (p : Profile) (now : String) : OAuthUserRec × Bool :=
  let m := mergeProfile (findByPair db p.type p.openid) p (fixNickname p now)
  (if p.type == "facebook" then { m.1 with token := "" } else m.1, m.2)

/-- The body of `authorize` once the profile fetch returned a truthy `user`:
nickname fixup, upsert of the row found by `(type, openid)`, the Facebook
token special case, then the linking decision on `user.email` — note the
decision reads the *merged* row, so for an existing row it sees the stored
email, not the freshly fetched one. The request `type` parameter is taken
equal to the profile's `type` (the manager's `ICON_NAME`): request strings
differing only in letter case reach the same manager and differ only through
database collation, which is not modelled. -/
def authorizeLinker (db : DB) (p : Profile) (now nexturl : String) : DB × Response :=
  let user := (upsertUser db p now).1
  let isNew := (upsertUser db p now).2
  if user.email ≠ "" then
    let res := resolveAuthorAuthorize db user (fixNickname p now) now
    let db2 := (saveOauthUser res.1 { user with author_id := some res.2.id } isNew).1
    (withSession db2 (some res.2.id), .redirect nexturl)
  else
    let saved := saveOauthUser db user isNew
    (saved.1, .redirect ("/oauth/requireemail/" ++ Nat.repr saved.2 ++ ".html"))

/-- `authorize` after the manager lookup: dispatch on the token-exchange
outcome, then on the profile fetch. `authUrl` is the manager's
`get_authorization_url`. -/
def authorize (db : DB) (authUrl : String → String) (exch : ExchangeResult)
    (profile : Option Profile) (now nexturl : String) : DB × Response :=
  match exch with
  | .tokenError => (db, .redirect "/")
  | .failed => (db, .redirect (authUrl nexturl))
  | .ok =>
    match profile with
    | none => (db, .redirect nexturl)
    | some p => authorizeLinker db p now nexturl

/-! ## `RequireEmailView.form_valid` and `emailconfirm` (`oauth/views.py`) -/

/-- What a POST to the email form produces: the new state, the HTTP reply, the
address mailed to, and the `(id, sign)` pair embedded in the mailed
confirmation link. -/
structure SubmitOutcome where
  db : DB
  response : Response
  sentTo : Option String
  link : Option (Nat × String)
deriving DecidableEq, Repr

/-- `RequireEmailView.form_valid` plus its `get_object_or_404` fetch: store
the submitted email on the row, sign `str(oauthuser.id)` with the secret,
mail the confirmation link to the submitted address, redirect to the
bindsuccess page. No session, ownership or prior-state check occurs. -/
def requireEmailSubmit (secret : String) (db : DB) (oauthid : Nat) (email : String) :
    SubmitOutcome :=
  match rowById db oauthid with
  | none => { db := db, response := .notFound, sentTo := none, link := none }
  | some oauthuser =>
    let db1 := (saveOauthUser db { oauthuser with email := email } false).1
    let sign := get_sha256 (secret ++ Nat.repr oauthuser.id ++ secret)
    { db := db1,
      response := .redirect ("/oauth/bindsuccess/" ++ Nat.repr oauthid ++ ".html?type=email"),
      sentTo := some email,
      link := some (oauthid, sign) }

/-- The account-resolution block of `emailconfirm`'s transaction: reuse the
linked account when `oauthuser.author` is set (a dangling FK raises —
`none`), else `get_or_create` by the stored email, with `emailconfirm`'s own
username rule (trimmed nickname, no collision check). -/
def resolveAuthorConfirm (db : DB) (oauthuser : OAuthUserRec) (now : String) :
    DB × Option BlogUserRec :=
  match oauthuser.author_id with
  | some aid => (db, findUserById db aid)
  | none =>
    match findUserByEmail db oauthuser.email with
    | some a => (db, some a)
    | none =>
      let uname := if pyStrip oauthuser.nickname = "" then "djangoblog" ++ now
                   else pyStrip oauthuser.nickname
      let newUser : BlogUserRec :=
        { id := db.nextUserId, username := uname, email := oauthuser.email,
          source := "emailconfirm" }
      ({ db with users := db.users ++ [newUser], nextUserId := db.nextUserId + 1 },
       some newUser)

/-- The transaction body of `emailconfirm` once the signature passed and the
row was fetched: resolve the account, write back `author_id`, log in,
redirect to bindsuccess. -/
def confirmLink (db : DB) (oauthuser : OAuthUserRec) (id : Nat) (now : String) :
    DB × Response :=
  match (resolveAuthorConfirm db oauthuser now).2 with
  | none => (db, .serverError)
  | some author =>
    let db2 := (saveOauthUser (resolveAuthorConfirm db oauthuser now).1
        { oauthuser with author_id := some author.id } false).1
    (withSession db2 (some author.id),
     .redirect ("/oauth/bindsuccess/" ++ Nat.repr id ++ ".html?type=success"))

/-- `emailconfirm`: signature check (403 and no state change on failure), then
the linking transaction, then login and the bindsuccess redirect. -/
def emailconfirm (secret : String) (db : DB) (id : Nat) (sign : String) (now : String) :
    DB × Response :=
  if verifySign secret id sign = false then (db, .forbidden)
  else
    match rowById db id with
    | none => (db, .notFound)
    | some oauthuser => confirmLink db oauthuser id now

/-! ## Traces of the linking state machine -/

/-- One inbound request touching the linking state: a successful provider
callback carrying a fetched profile, an email-form POST, or a
confirmation-link visit. -/
inductive Op
  | callback (p : Profile) (now nexturl : String)
  | submitEmail (oauthid : Nat) (email : String)
  | confirm (id : Nat) (sign : String) (now : String)
deriving Repr

def step (secret : String) (db : DB) : Op → DB
  | .callback p now nexturl => (authorizeLinker db p now nexturl).1
  | .submitEmail oid email => (requireEmailSubmit secret db oid email).db
  | .confirm id sign now => (emailconfirm secret db id sign now).1

def run (secret : String) (db : DB) : List Op → DB
  | [] => db
  | op :: ops => run secret (step secret db op) ops

/-! ## `get_redirecturl` (`oauth/views.py`, open-redirect guard) -/

/-- Characters allowed after the first one in a URL scheme. -/
def isSchemeChar (c : Char) : Bool :=
  c.isAlpha || c.isDigit || c == '+' || c == '-' || c == '.'

/-- Strip a leading `scheme:` the way `urllib.parse.urlparse` does: only when
the text before the first `:` is a well-formed scheme. -/
def dropScheme (s : String) : List Char :=
  let l := s.data
  match l.findIdx? (· == ':') with
  | none => l
  | some i =>
    match l.take i with
    | [] => l
    | c :: rest => if c.isAlpha && rest.all isSchemeChar then l.drop (i + 1) else l

/-- Model of `urlparse(url).netloc`: after the optional scheme, the run
following a leading `//` up to the first `/`, `?` or `#`; empty otherwise. -/
def netlocOf (s : String) : String :=
  match dropScheme s with
  | '/' :: '/' :: rest => ⟨rest.takeWhile (fun c => !(c == '/' || c == '?' || c == '#'))⟩
  | _ => ""

/-- Python `s.replace('www.', '')`: remove every non-overlapping occurrence,
scanning left to right — anywhere in the string, not only as a prefix. -/
def stripWWWList : List Char → List Char
  | 'w' :: 'w' :: 'w' :: '.' :: rest => stripWWWList rest
  | c :: rest => c :: stripWWWList rest
  | [] => []

def pyStripWWW (s : String) : String := ⟨stripWWWList s.data⟩

/-- `get_redirecturl`: `next_url` request parameter (`none` when absent) and
the current site's domain. -/
def get_redirecturl (site : String) (next_url : Option String) : String :=
  match next_url with
  | none => "/"
  | some nexturl =>
    if nexturl = "" || nexturl = "/login/" || nexturl = "/login" then "/"
    else
      let p := netlocOf nexturl
      if p ≠ "" then
        if ¬(pyStripWWW p = pyStripWWW site) then "/" else nexturl
      else nexturl

/-! ## Token exchange (`oauth/oauthmanager.py`) -/

/-- Split a character list at every occurrence of a separator (Python
`str.split(sep)`). -/
def splitOnChar (sep : Char) : List Char → List (List Char)
  | [] => [[]]
  | c :: rest =>
    if c = sep then [] :: splitOnChar sep rest
    else
      match splitOnChar sep rest with
      | [] => [[c]]
      | h :: t => (c :: h) :: t

/-- Split a field at its first `=` (Python `split('=', 1)`); `none` when no
`=` occurs. -/
def splitFirstEq : List Char → Option (List Char × List Char)
  | [] => none
  | c :: rest =>
    if c = '=' then some ([], rest)
    else
      match splitFirstEq rest with
      | none => none
      | some (n, v) => some (c :: n, v)

/-- `urllib.parse.parse_qs`, as the adapters use it: split the body on `&`,
keep `name=value` fields whose value is non-empty (default
`keep_blank_values=False`), splitting each field at its first `=`.
Percent-decoding is omitted: the adapters only test key presence and pass the
value through opaquely. -/
def parse_qs (s : String) : List (String × String) :=
  (splitOnChar '&' s.data).filterMap (fun field =>
    match splitFirstEq field with
    | none => none
    | some (n, v) => if v.isEmpty then none else some (⟨n⟩, ⟨v⟩))

/-- `GitHubOauthManager.get_access_token_by_code` given the token endpoint's
response text: parse as form-urlencoded, return the first `access_token`
value, else raise `OAuthAccessTokenException(rsp)` (`Except.error rsp`). The
adapter touches no stored record. -/
def github_get_access_token_by_code (rsp : String) : Except String String :=
  match (parse_qs rsp).lookup "access_token" with
  | some t => .ok t
  | none => .error rsp

/-- `QQOauthManager.get_access_token_by_code`: the whole body sits under
`if rsp:`, whose `else` raises — so the exception fires only for a falsy
(empty) response text. A non-empty response without an `access_token` field
falls through both `if`s and returns `None` (`Except.ok none`). On success the
method returns `d['access_token']`, the full value list. -/
def qq_get_access_token_by_code (rsp : String) : Except String (Option (List String)) :=
  if rsp ≠ "" then
    let d := parse_qs rsp
    if (d.lookup "access_token").isSome then
      .ok (some (d.filterMap (fun p => if p.1 = "access_token" then some p.2 else none)))
    else .ok none
  else .error rsp

/-! ## Profile normalization and avatar re-extraction (`oauth/oauthmanager.py`)

Each manager's `get_oauth_userinfo` parses the profile-endpoint response with
`json.loads`, stores the raw text in `user.metadata`, and maps provider field
names onto the `OAuthUser` shape; `get_picture(metadata)` re-parses the stored
text and re-extracts the avatar without a network call. `json.loads` is
deterministic, so the embedding identifies the response text with its parse
and stores the parsed value in `metadata`. -/

inductive Json
  | null
  | str (s : String)
  | num (n : Int)
  | bool (b : Bool)
  | arr (xs : List Json)
  | obj (fields : List (String × Json))

/-- `datas[key]` on a decoded JSON object; `none` models the `KeyError` (or
`TypeError` on a non-dict) the subscript raises. -/
def Json.get? : Json → String → Option Json
  | .obj fields, key => fields.lookup key
  | _, _ => none

/-- Python truthiness of a decoded JSON value. -/
def Json.truthy : Json → Bool
  | .null => false
  | .str s => s ≠ ""
  | .num n => n != 0
  | .bool b => b
  | .arr xs => !xs.isEmpty
  | .obj fields => !fields.isEmpty

/-- Python `str(...)` of a decoded JSON value. The adapters apply it on both
the store side and the re-extraction side to the same value, so the round-trip
results do not depend on its text for container values (modelled as `""`). -/
def pyStr : Json → String
  | .str s => s
  | .num n => toString n
  | .bool b => if b then "True" else "False"
  | .null => "None"
  | .arr _ => ""
  | .obj _ => ""

/-- The `OAuthUser()` instance `get_oauth_userinfo` fills: `metadata` holds
the (parse of the) raw response text, `picture`/`email` stay unset when their
guard is skipped. -/
structure FetchedUser where
  metadata : Json
  picture : Option Json
  nickname : Json
  openid : Json
  token : String
  email : Option Json

/-- `WBOauthManager.get_oauth_userinfo` over the parsed response: guarded by
`is_authorized`; a missing key raises inside the `try` and the method returns
`None`. -/
def wb_get_oauth_userinfo (is_authorized : Bool) (access_token : String) (datas : Json) :
    Option FetchedUser :=
  if !is_authorized then none
  else
    match datas.get? "avatar_large", datas.get? "screen_name", datas.get? "id" with
    | some pic, some name, some oid =>
      some { metadata := datas, picture := some pic, nickname := name, openid := oid,
             token := access_token,
             email := match datas.get? "email" with
                      | some e => if e.truthy then some e else none
                      | none => none }
    | _, _, _ => none

/-- `WBOauthManager.get_picture`: re-parse the stored metadata and return
`datas['avatar_large']`. -/
def wb_get_picture (metadata : Json) : Option Json := metadata.get? "avatar_large"

/-- `GitHubOauthManager.get_oauth_userinfo` (no authorization guard). -/
def github_get_oauth_userinfo (access_token : String) (datas : Json) :
    Option FetchedUser :=
  match datas.get? "avatar_url", datas.get? "name", datas.get? "id" with
  | some pic, some name, some oid =>
    some { metadata := datas, picture := some pic, nickname := name, openid := oid,
           token := access_token,
           email := match datas.get? "email" with
                    | some e => if e.truthy then some e else none
                    | none => none }
  | _, _, _ => none

/-- `GitHubOauthManager.get_picture`. -/
def github_get_picture (metadata : Json) : Option Json := metadata.get? "avatar_url"

/-- `GoogleOauthManager.get_oauth_userinfo`: `datas['email']` is subscripted
unconditionally, so a payload without an email raises and yields `None`. -/
def google_get_oauth_userinfo (is_authorized : Bool) (access_token : String) (datas : Json) :
    Option FetchedUser :=
  if !is_authorized then none
  else
    match datas.get? "picture", datas.get? "name", datas.get? "sub", datas.get? "email" with
    | some pic, some name, some oid, some e =>
      some { metadata := datas, picture := some pic, nickname := name, openid := oid,
             token := access_token,
             email := if e.truthy then some e else none }
    | _, _, _, _ => none

/-- `GoogleOauthManager.get_picture`. -/
def google_get_picture (metadata : Json) : Option Json := metadata.get? "picture"

/-- The compound guard
`'picture' in datas and datas['picture'] and datas['picture']['data'] and
datas['picture']['data']['url']` of the Facebook adapter; `none` models a
subscript raising once the short-circuit has passed a truthy dict. -/
def fb_picture_guard (datas : Json) : Option Bool :=
  match datas.get? "picture" with
  | none => some false
  | some pv =>
    if !pv.truthy then some false
    else match pv.get? "data" with
      | none => none
      | some dv =>
        if !dv.truthy then some false
        else match dv.get? "url" with
          | none => none
          | some uv => some uv.truthy

/-- `FaceBookOauthManager.get_oauth_userinfo`: everything sits in one `try`,
so a raising picture guard drops the whole profile. -/
def facebook_get_oauth_userinfo (access_token : String) (datas : Json) :
    Option FetchedUser :=
  match datas.get? "name", datas.get? "id" with
  | some name, some oid =>
    match fb_picture_guard datas with
    | none => none
    | some b =>
      some { metadata := datas,
             picture :=
               if b then
                 (((datas.get? "picture").bind (fun p => p.get? "data")).bind
                   (fun d => d.get? "url")).map (fun v => Json.str (pyStr v))
               else none,
             nickname := name, openid := oid, token := access_token,
             email := match datas.get? "email" with
                      | some e => if e.truthy then some e else none
                      | none => none }
  | _, _ => none

/-- `FaceBookOauthManager.get_picture`: `str(datas['picture']['data']['url'])`
with no guard. -/
def facebook_get_picture (metadata : Json) : Option Json :=
  (((metadata.get? "picture").bind (fun p => p.get? "data")).bind
    (fun d => d.get? "url")).map (fun v => Json.str (pyStr v))

/-- `QQOauthManager.get_oauth_userinfo`: needs the separately resolved
`openid` (`none` models both a falsy resolution, which returns `None`, and the
unguarded `obj['nickname']` subscript raising — QQ has no `try`). Note the
email guard checks presence only, not truthiness. -/
def qq_get_oauth_userinfo (access_token : String) (openid : Option String) (obj : Json) :
    Option FetchedUser :=
  match openid with
  | none => none
  | some oid =>
    match obj.get? "nickname" with
    | none => none
    | some name =>
      some { metadata := obj,
             picture := (obj.get? "figureurl").map (fun v => Json.str (pyStr v)),
             nickname := name, openid := .str oid, token := access_token,
             email := obj.get? "email" }

/-- `QQOauthManager.get_picture`: `str(datas['figureurl'])`. -/
def qq_get_picture (metadata : Json) : Option Json :=
  (metadata.get? "figureurl").map (fun v => Json.str (pyStr v))

/-! ## Well-formedness of the store and basic row lemmas -/

/-- The store invariants the views maintain: distinct primary keys, at most
one row per `(type, openid)`, autoincrement counters above every live id, and
set `author_id`s designating existing accounts. -/
structure WF (db : DB) : Prop where
  pairsNodup : db.oauthUsers.Pairwise (fun a b => a.type ≠ b.type ∨ a.openid ≠ b.openid)
  oauthIdsNodup : (db.oauthUsers.map (fun r => r.id)).Nodup
  oauthIdsLt : ∀ r ∈ db.oauthUsers, r.id < db.nextOauthId
  userIdsNodup : (db.users.map (fun u => u.id)).Nodup
  userIdsLt : ∀ u ∈ db.users, u.id < db.nextUserId
  authorsExist : ∀ r ∈ db.oauthUsers, ∀ a, r.author_id = some a → ∃ u ∈ db.users, u.id = a

theorem wf_empty : WF DB.empty := by
  constructor <;> simp [DB.empty]

theorem find?_congr {α} {p q : α → Bool} (h : ∀ x, p x = q x) (l : List α) :
    l.find? p = l.find? q := by
  have : p = q := funext h
  rw [this]

/-- How many rows carry a given `(type, openid)` pair. -/
def countPair (db : DB) (t o : String) : Nat :=
  (db.oauthUsers.filter (fun r => r.type == t && r.openid == o)).length

theorem filter_pair_le_one {l : List OAuthUserRec}
    (hp : l.Pairwise (fun a b => a.type ≠ b.type ∨ a.openid ≠ b.openid)) (t o : String) :
    (l.filter (fun r => r.type == t && r.openid == o)).length ≤ 1 := by
  induction l with
  | nil => simp
  | cons a l ih =>
    rw [List.pairwise_cons] at hp
    by_cases ha : (a.type == t && a.openid == o) = true
    · have hat : a.type = t ∧ a.openid = o := by
        simp only [Bool.and_eq_true, beq_iff_eq] at ha
        exact ha
      have hnil : l.filter (fun r => r.type == t && r.openid == o) = [] := by
        rw [List.filter_eq_nil_iff]
        intro x hx
        simp only [Bool.and_eq_true, beq_iff_eq, not_and]
        intro hxt hxo
        rcases hp.1 x hx with hne | hne
        · exact hne (hat.1.trans hxt.symm)
        · exact hne (hat.2.trans hxo.symm)
      simp [List.filter_cons, ha, hnil]
    · simp only [List.filter_cons, ha]
      exact ih hp.2

theorem countPair_le_one {db : DB} (hwf : WF db) (t o : String) : countPair db t o ≤ 1 :=
  filter_pair_le_one hwf.pairsNodup t o

theorem mem_of_rowById {db : DB} {i : Nat} {r : OAuthUserRec}
    (h : rowById db i = some r) : r ∈ db.oauthUsers ∧ r.id = i := by
  refine ⟨List.mem_of_find?_eq_some h, ?_⟩
  have := List.find?_some h
  simpa using this

theorem mem_of_findByPair {db : DB} {t o : String} {r : OAuthUserRec}
    (h : findByPair db t o = some r) : r ∈ db.oauthUsers ∧ r.type = t ∧ r.openid = o := by
  refine ⟨List.mem_of_find?_eq_some h, ?_⟩
  have := List.find?_some h
  simpa using this

theorem find?_pair_of_mem {l : List OAuthUserRec}
    (hp : l.Pairwise (fun a b => a.type ≠ b.type ∨ a.openid ≠ b.openid))
    {r : OAuthUserRec} (hr : r ∈ l) :
    l.find? (fun x => x.type == r.type && x.openid == r.openid) = some r := by
  induction l with
  | nil => simp at hr
  | cons a l ih =>
    rw [List.pairwise_cons] at hp
    rcases List.mem_cons.mp hr with rfl | hr
    · simp
    · have hna : (a.type == r.type && a.openid == r.openid) = false := by
        rcases hp.1 r hr with hne | hne <;> simp [hne]
      simp only [List.find?_cons, hna]
      exact ih hp.2 hr

/-- Under the store invariant, the row found by `(type, openid)` is the one
and only row with that pair. -/
theorem findByPair_eq_of_mem {db : DB} (hwf : WF db) {r : OAuthUserRec}
    (hr : r ∈ db.oauthUsers) : findByPair db r.type r.openid = some r :=
  find?_pair_of_mem hwf.pairsNodup hr

theorem find?_id_of_mem {l : List OAuthUserRec} (hnd : (l.map (fun r => r.id)).Nodup)
    {r : OAuthUserRec} (hr : r ∈ l) :
    l.find? (fun x => x.id == r.id) = some r := by
  induction l with
  | nil => simp at hr
  | cons a l ih =>
    simp only [List.map_cons, List.nodup_cons] at hnd
    rcases List.mem_cons.mp hr with rfl | hr
    · simp
    · have hna : (a.id == r.id) = false := by
        rw [beq_eq_false_iff_ne]
        intro hc
        exact hnd.1 (hc ▸ List.mem_map_of_mem (fun x => x.id) hr)
      simp only [List.find?_cons, hna]
      exact ih hnd.2 hr

/-- The row found by id is unique under the store invariant. -/
theorem rowById_eq_of_mem {db : DB} (hwf : WF db) {r : OAuthUserRec}
    (hr : r ∈ db.oauthUsers) : rowById db r.id = some r :=
  find?_id_of_mem hwf.oauthIdsNodup hr

/-- Saving an existing row (`isNew = false`) leaves everything but the row
list unchanged and rewrites the row list pointwise. -/
theorem save_update_eq (db : DB) (r : OAuthUserRec) :
    (saveOauthUser db r false).1 =
      { db with oauthUsers := db.oauthUsers.map (fun x => if x.id == r.id then r else x) } := by
  simp [saveOauthUser]

/-- Saving a fresh row (`isNew = true`) appends it under the next id. -/
theorem save_new_eq (db : DB) (r : OAuthUserRec) :
    (saveOauthUser db r true).1 =
      { db with oauthUsers := db.oauthUsers ++ [{ r with id := db.nextOauthId }],
                nextOauthId := db.nextOauthId + 1 } ∧
    (saveOauthUser db r true).2 = db.nextOauthId := by
  simp [saveOauthUser]

/-- Lookup by id commutes with the pointwise update a non-new save performs:
the replacement carries the id it matched on. -/
theorem rowById_save_update (db : DB) (r : OAuthUserRec) (i : Nat) :
    rowById (saveOauthUser db r false).1 i =
      (rowById db i).map (fun x => if x.id == r.id then r else x) := by
  rw [save_update_eq]
  unfold rowById
  simp only [List.find?_map]
  rw [find?_congr (p := (fun y => y.id == i) ∘ fun x => if x.id == r.id then r else x)
      (q := fun x => x.id == i)]
  intro x
  by_cases h : x.id = r.id <;> simp [h]

theorem rowById_save_new (db : DB) (r : OAuthUserRec) (i : Nat) :
    rowById (saveOauthUser db r true).1 i =
      (rowById db i).or
        (if db.nextOauthId == i then some { r with id := db.nextOauthId } else none) := by
  rw [(save_new_eq db r).1]
  unfold rowById
  simp only [List.find?_append]
  congr 1
  by_cases h : db.nextOauthId = i <;> simp [h]

/-! ## Account-resolution lemmas -/

theorem mem_of_findUserById {db : DB} {i : Nat} {u : BlogUserRec}
    (h : findUserById db i = some u) : u ∈ db.users ∧ u.id = i := by
  refine ⟨List.mem_of_find?_eq_some h, ?_⟩
  have := List.find?_some h
  simpa using this

theorem findUserById_of_exists {db : DB} {aid : Nat} (h : ∃ u ∈ db.users, u.id = aid) :
    ∃ u, findUserById db aid = some u ∧ u.id = aid := by
  rcases h with ⟨u, hu, hid⟩
  have hs : (db.users.find? (fun x => x.id == aid)).isSome := by
    rw [List.find?_isSome]
    exact ⟨u, hu, by simp [hid]⟩
  rcases Option.isSome_iff_exists.mp hs with ⟨v, hv⟩
  exact ⟨v, hv, by simpa using List.find?_some hv⟩

/-- What the `authorize` account resolution can do to the state: it never
touches the identity rows, returns an account that lives in the resulting
user table, and either leaves the user table alone or appends exactly the
returned fresh account. -/
theorem resolveAuthorAuthorize_state (db : DB) (user : OAuthUserRec) (nickname now : String) :
    (resolveAuthorAuthorize db user nickname now).1.oauthUsers = db.oauthUsers ∧
    (resolveAuthorAuthorize db user nickname now).1.nextOauthId = db.nextOauthId ∧
    (resolveAuthorAuthorize db user nickname now).2 ∈
      (resolveAuthorAuthorize db user nickname now).1.users ∧
    (∀ u ∈ db.users, u ∈ (resolveAuthorAuthorize db user nickname now).1.users) ∧
    (((resolveAuthorAuthorize db user nickname now).1.users = db.users ∧
      (resolveAuthorAuthorize db user nickname now).1.nextUserId = db.nextUserId) ∨
     ((resolveAuthorAuthorize db user nickname now).1.users =
        db.users ++ [(resolveAuthorAuthorize db user nickname now).2] ∧
      (resolveAuthorAuthorize db user nickname now).1.nextUserId = db.nextUserId + 1 ∧
      (resolveAuthorAuthorize db user nickname now).2.id = db.nextUserId)) := by
  unfold resolveAuthorAuthorize
  cases h0 : user.author_id.bind (fun aid => findUserById db aid) with
  | some a =>
    rcases Option.bind_eq_some.mp h0 with ⟨aid, _, hfind⟩
    exact ⟨rfl, rfl, (mem_of_findUserById hfind).1, fun u hu => hu, Or.inl ⟨rfl, rfl⟩⟩
  | none =>
    cases h1 : findUserByEmail db user.email with
    | some a =>
      exact ⟨rfl, rfl, List.mem_of_find?_eq_some h1, fun u hu => hu, Or.inl ⟨rfl, rfl⟩⟩
    | none =>
      refine ⟨rfl, rfl, ?_, ?_, Or.inr ⟨rfl, rfl, rfl⟩⟩
      · simp
      · intro u hu
        simp [hu]

/-- When the identity already designates an existing account, the `authorize`
resolution returns exactly that account and changes nothing. -/
theorem resolveAuthorAuthorize_linked {db : DB} {user : OAuthUserRec} {aid : Nat}
    (ha : user.author_id = some aid) {u : BlogUserRec} (hu : findUserById db aid = some u)
    (nickname now : String) :
    resolveAuthorAuthorize db user nickname now = (db, u) := by
  unfold resolveAuthorAuthorize
  rw [ha]
  simp [Option.bind, hu]

/-- The same state characterization for `emailconfirm`'s resolution. -/
theorem resolveAuthorConfirm_state (db : DB) (user : OAuthUserRec) (now : String) :
    (resolveAuthorConfirm db user now).1.oauthUsers = db.oauthUsers ∧
    (resolveAuthorConfirm db user now).1.nextOauthId = db.nextOauthId ∧
    (∀ a, (resolveAuthorConfirm db user now).2 = some a →
      a ∈ (resolveAuthorConfirm db user now).1.users) ∧
    (∀ u ∈ db.users, u ∈ (resolveAuthorConfirm db user now).1.users) ∧
    (((resolveAuthorConfirm db user now).1.users = db.users ∧
      (resolveAuthorConfirm db user now).1.nextUserId = db.nextUserId) ∨
     (∃ a, (resolveAuthorConfirm db user now).2 = some a ∧
      (resolveAuthorConfirm db user now).1.users = db.users ++ [a] ∧
      (resolveAuthorConfirm db user now).1.nextUserId = db.nextUserId + 1 ∧
      a.id = db.nextUserId)) := by
  unfold resolveAuthorConfirm
  cases h0 : user.author_id with
  | some aid =>
    refine ⟨rfl, rfl, ?_, fun u hu => hu, Or.inl ⟨rfl, rfl⟩⟩
    intro a ha
    exact (mem_of_findUserById ha).1
  | none =>
    cases h1 : findUserByEmail db user.email with
    | some a =>
      refine ⟨rfl, rfl, ?_, fun u hu => hu, Or.inl ⟨rfl, rfl⟩⟩
      intro b hb
      cases hb
      exact List.mem_of_find?_eq_some h1
    | none =>
      refine ⟨rfl, rfl, ?_, ?_, Or.inr ⟨_, rfl, rfl, rfl, rfl⟩⟩
      · intro a ha
        cases ha
        simp
      · intro u hu
        simp [hu]

/-- When the identity already designates an account, `emailconfirm`'s
resolution just looks it up. -/
theorem resolveAuthorConfirm_linked {db : DB} {user : OAuthUserRec} {aid : Nat}
    (ha : user.author_id = some aid) (now : String) :
    resolveAuthorConfirm db user now = (db, findUserById db aid) := by
  unfold resolveAuthorConfirm
  rw [ha]

/-- Pointwise effect of the save-update map when the saved record keeps the
identity of the row it replaces: every row keeps its id, `type` and `openid`. -/
theorem update_map_fields {l : List OAuthUserRec} (hnd : (l.map (fun r => r.id)).Nodup)
    {temp r' : OAuthUserRec} (htemp : temp ∈ l) (hid : r'.id = temp.id)
    (htyp : r'.type = temp.type) (hop : r'.openid = temp.openid) :
    ∀ x ∈ l, (if x.id == r'.id then r' else x).id = x.id ∧
             (if x.id == r'.id then r' else x).type = x.type ∧
             (if x.id == r'.id then r' else x).openid = x.openid := by
  intro x hx
  by_cases h : x.id = r'.id
  · have hxt : x = temp := List.inj_on_of_nodup_map hnd hx htemp (by rw [h, hid])
    subst hxt
    have hc : (x.id == r'.id) = true := by simp [h]
    rw [if_pos hc]
    exact ⟨hid, htyp, hop⟩
  · simp [h]

/-! ## Preservation of the store invariant -/

theorem rowById_eq_of_rows_eq {db db' : DB} (h : db'.oauthUsers = db.oauthUsers) (i : Nat) :
    rowById db' i = rowById db i := by
  unfold rowById
  rw [h]

theorem WF_session {db : DB} (hwf : WF db) (s : Option Nat) :
    WF (withSession db s) :=
  ⟨hwf.pairsNodup, hwf.oauthIdsNodup, hwf.oauthIdsLt, hwf.userIdsNodup, hwf.userIdsLt,
   hwf.authorsExist⟩

/-- Updating an existing row in place preserves the invariant when the saved
record keeps the replaced row's identity and its `author_id` (when set)
designates an existing account. -/
theorem WF_save_update {db : DB} (hwf : WF db) {temp r' : OAuthUserRec}
    (htemp : temp ∈ db.oauthUsers) (hid : r'.id = temp.id)
    (htyp : r'.type = temp.type) (hop : r'.openid = temp.openid)
    (hauth : ∀ a, r'.author_id = some a → ∃ u ∈ db.users, u.id = a) :
    WF (saveOauthUser db r' false).1 := by
  rw [save_update_eq]
  have hfields := update_map_fields hwf.oauthIdsNodup htemp hid htyp hop
  constructor
  · rw [List.pairwise_map]
    refine hwf.pairsNodup.imp_of_mem ?_
    intro a b ha hb hr
    rcases hfields a ha with ⟨_, hta, hoa⟩
    rcases hfields b hb with ⟨_, htb, hob⟩
    rcases hr with h | h
    · exact Or.inl (by rw [hta, htb]; exact h)
    · exact Or.inr (by rw [hoa, hob]; exact h)
  · have hids : (db.oauthUsers.map (fun x => if x.id == r'.id then r' else x)).map
        (fun r => r.id) = db.oauthUsers.map (fun r => r.id) := by
      rw [List.map_map]
      exact List.map_congr_left (fun x hx => (hfields x hx).1)
    rw [hids]
    exact hwf.oauthIdsNodup
  · intro r hr
    rcases List.mem_map.mp hr with ⟨x, hx, rfl⟩
    have := (hfields x hx).1
    rw [this]
    exact hwf.oauthIdsLt x hx
  · exact hwf.userIdsNodup
  · exact hwf.userIdsLt
  · intro r hr a ha
    rcases List.mem_map.mp hr with ⟨x, hx, rfl⟩
    by_cases h : x.id = r'.id
    · have hx' : (if x.id == r'.id then r' else x) = r' := by simp [h]
      rw [hx'] at ha
      exact hauth a ha
    · have hx' : (if x.id == r'.id then r' else x) = x := by simp [h]
      rw [hx'] at ha
      exact hwf.authorsExist x hx a ha

/-- Inserting a fresh row under the next id preserves the invariant when no
existing row carries its `(type, openid)` pair and its `author_id` (when set)
designates an existing account. -/
theorem WF_save_new {db : DB} (hwf : WF db) {r' : OAuthUserRec}
    (hpair : ∀ x ∈ db.oauthUsers, x.type ≠ r'.type ∨ x.openid ≠ r'.openid)
    (hauth : ∀ a, r'.author_id = some a → ∃ u ∈ db.users, u.id = a) :
    WF (saveOauthUser db r' true).1 := by
  rw [(save_new_eq db r').1]
  constructor
  · rw [List.pairwise_append]
    refine ⟨hwf.pairsNodup, by simp, ?_⟩
    intro a ha b hb
    have hb' : b = { r' with id := db.nextOauthId } := by simpa using hb
    subst hb'
    exact hpair a ha
  · rw [List.map_append]
    rw [List.nodup_append]
    refine ⟨hwf.oauthIdsNodup, by simp, ?_⟩
    intro x hx
    rcases List.mem_map.mp hx with ⟨y, hy, rfl⟩
    simp only [List.map_cons, List.map_nil, List.mem_singleton]
    intro hc
    have := hwf.oauthIdsLt y hy
    omega
  · intro r hr
    rcases List.mem_append.mp hr with h | h
    · have := hwf.oauthIdsLt r h
      show r.id < db.nextOauthId + 1
      omega
    · have : r = { r' with id := db.nextOauthId } := by simpa using h
      subst this
      show db.nextOauthId < db.nextOauthId + 1
      omega
  · exact hwf.userIdsNodup
  · exact hwf.userIdsLt
  · intro r hr a ha
    rcases List.mem_append.mp hr with h | h
    · exact hwf.authorsExist r h a ha
    · have : r = { r' with id := db.nextOauthId } := by simpa using h
      subst this
      exact hauth a ha

theorem WF_resolveAuthorAuthorize {db : DB} (hwf : WF db)
    (user : OAuthUserRec) (nickname now : String) :
    WF (resolveAuthorAuthorize db user nickname now).1 := by
  obtain ⟨ho, hn, hmem, hsub, hdisj⟩ := resolveAuthorAuthorize_state db user nickname now
  rcases hdisj with ⟨hu, hnu⟩ | ⟨hu, hnu, hid⟩
  · exact ⟨ho ▸ hwf.pairsNodup, ho ▸ hwf.oauthIdsNodup,
      by rw [ho, hn]; exact hwf.oauthIdsLt,
      hu ▸ hwf.userIdsNodup, by rw [hu, hnu]; exact hwf.userIdsLt,
      by rw [ho, hu]; exact hwf.authorsExist⟩
  · refine ⟨ho ▸ hwf.pairsNodup, ho ▸ hwf.oauthIdsNodup,
      by rw [ho, hn]; exact hwf.oauthIdsLt, ?_, ?_, ?_⟩
    · rw [hu, List.map_append, List.nodup_append]
      refine ⟨hwf.userIdsNodup, by simp, ?_⟩
      intro x hx
      rcases List.mem_map.mp hx with ⟨y, hy, rfl⟩
      simp only [List.map_cons, List.map_nil, List.mem_singleton]
      intro hc
      have := hwf.userIdsLt y hy
      omega
    · intro u hu'
      rw [hnu]
      rw [hu] at hu'
      rcases List.mem_append.mp hu' with h | h
      · have := hwf.userIdsLt u h
        omega
      · have : u = (resolveAuthorAuthorize db user nickname now).2 := by simpa using h
        subst this
        omega
    · rw [ho, hu]
      intro r hr a ha
      rcases hwf.authorsExist r hr a ha with ⟨u, hu', hid'⟩
      exact ⟨u, List.mem_append_left _ hu', hid'⟩

theorem WF_resolveAuthorConfirm {db : DB} (hwf : WF db)
    (user : OAuthUserRec) (now : String) :
    WF (resolveAuthorConfirm db user now).1 := by
  obtain ⟨ho, hn, hmem, hsub, hdisj⟩ := resolveAuthorConfirm_state db user now
  rcases hdisj with ⟨hu, hnu⟩ | ⟨a, ha, hu, hnu, hid⟩
  · exact ⟨ho ▸ hwf.pairsNodup, ho ▸ hwf.oauthIdsNodup,
      by rw [ho, hn]; exact hwf.oauthIdsLt,
      hu ▸ hwf.userIdsNodup, by rw [hu, hnu]; exact hwf.userIdsLt,
      by rw [ho, hu]; exact hwf.authorsExist⟩
  · refine ⟨ho ▸ hwf.pairsNodup, ho ▸ hwf.oauthIdsNodup,
      by rw [ho, hn]; exact hwf.oauthIdsLt, ?_, ?_, ?_⟩
    · rw [hu, List.map_append, List.nodup_append]
      refine ⟨hwf.userIdsNodup, by simp, ?_⟩
      intro x hx
      rcases List.mem_map.mp hx with ⟨y, hy, rfl⟩
      simp only [List.map_cons, List.map_nil, List.mem_singleton]
      intro hc
      have := hwf.userIdsLt y hy
      omega
    · intro u hu'
      rw [hnu]
      rw [hu] at hu'
      rcases List.mem_append.mp hu' with h | h
      · have := hwf.userIdsLt u h
        omega
      · have : u = a := by simpa using h
        subst this
        omega
    · rw [ho, hu]
      intro r hr b hb
      rcases hwf.authorsExist r hr b hb with ⟨u, hu', hid'⟩
      exact ⟨u, List.mem_append_left _ hu', hid'⟩

theorem pair_absent_of_findByPair_none {db : DB} {t o : String}
    (h : findByPair db t o = none) :
    ∀ x ∈ db.oauthUsers, x.type ≠ t ∨ x.openid ≠ o := by
  intro x hx
  have hx' := List.find?_eq_none.mp h x hx
  by_cases h1 : x.type = t
  · exact Or.inr (fun h2 => hx' (by simp [h1, h2]))
  · exact Or.inl h1

/-- The upsert-then-link branch of `authorize` preserves the invariant, for
any saved `user` record that either replaces an existing row (keeping its
identity) or is fresh for its `(type, openid)` pair. -/
theorem WF_linkBranch {db : DB} (hwf : WF db) (user : OAuthUserRec) (isNew : Bool)
    (nickname now : String)
    (hold : isNew = false → ∃ temp ∈ db.oauthUsers,
      user.id = temp.id ∧ user.type = temp.type ∧ user.openid = temp.openid)
    (hnew : isNew = true → ∀ x ∈ db.oauthUsers, x.type ≠ user.type ∨ x.openid ≠ user.openid) :
    WF (withSession
          (saveOauthUser (resolveAuthorAuthorize db user nickname now).1
            { user with author_id := some (resolveAuthorAuthorize db user nickname now).2.id }
            isNew).1
          (some (resolveAuthorAuthorize db user nickname now).2.id)) := by
  apply WF_session
  obtain ⟨ho, hn, hmem, hsub, _⟩ := resolveAuthorAuthorize_state db user nickname now
  have hwf1 := WF_resolveAuthorAuthorize hwf user nickname now
  have hauth : ∀ a,
      ({ user with author_id := some (resolveAuthorAuthorize db user nickname now).2.id }
        : OAuthUserRec).author_id = some a →
      ∃ u ∈ (resolveAuthorAuthorize db user nickname now).1.users, u.id = a := by
    intro a ha
    have : (resolveAuthorAuthorize db user nickname now).2.id = a := by
      simpa using ha
    exact ⟨(resolveAuthorAuthorize db user nickname now).2, hmem, this⟩
  cases isNew with
  | false =>
    rcases hold rfl with ⟨temp, htm, hid, hty, hopn⟩
    exact WF_save_update hwf1 (ho ▸ htm) hid hty hopn hauth
  | true =>
    apply WF_save_new hwf1 _ hauth
    rw [ho]
    exact hnew rfl

/-- The upsert-without-linking branch (`user.email` falsy) likewise. -/
theorem WF_plainSave {db : DB} (hwf : WF db) (user : OAuthUserRec) (isNew : Bool)
    (hold : isNew = false → ∃ temp ∈ db.oauthUsers,
      user.id = temp.id ∧ user.type = temp.type ∧ user.openid = temp.openid)
    (hnew : isNew = true → ∀ x ∈ db.oauthUsers, x.type ≠ user.type ∨ x.openid ≠ user.openid)
    (hauth : ∀ a, user.author_id = some a → ∃ u ∈ db.users, u.id = a) :
    WF (saveOauthUser db user isNew).1 := by
  cases isNew with
  | false =>
    rcases hold rfl with ⟨temp, htm, hid, hty, hopn⟩
    exact WF_save_update hwf htm hid hty hopn hauth
  | true =>
    exact WF_save_new hwf (hnew rfl) hauth

/-- What `upsertUser` yields when the `(type, openid)` lookup found a row:
an in-place refresh keeping the row's identity, stored email, and — except
for Facebook, where it is cleared — its stored token. -/
theorem upsertUser_found {db : DB} {p : Profile} {temp : OAuthUserRec}
    (hf : findByPair db p.type p.openid = some temp) (now : String) :
    (upsertUser db p now).2 = false ∧
    (upsertUser db p now).1.id = temp.id ∧
    (upsertUser db p now).1.type = temp.type ∧
    (upsertUser db p now).1.openid = temp.openid ∧
    (upsertUser db p now).1.email = temp.email ∧
    (upsertUser db p now).1.author_id = temp.author_id ∧
    (upsertUser db p now).1.picture = p.picture ∧
    (upsertUser db p now).1.metadata = p.metadata ∧
    (upsertUser db p now).1.nickname = fixNickname p now ∧
    (upsertUser db p now).1.token = (if p.type == "facebook" then "" else temp.token) := by
  unfold upsertUser
  rw [hf]
  simp only [mergeProfile]
  by_cases hfb : (p.type == "facebook") = true <;> simp [hfb]

/-- What `upsertUser` yields at a fresh `(type, openid)` pair: the fetched
profile itself, unlinked. -/
theorem upsertUser_new {db : DB} {p : Profile}
    (hf : findByPair db p.type p.openid = none) (now : String) :
    (upsertUser db p now).2 = true ∧
    (upsertUser db p now).1.type = p.type ∧
    (upsertUser db p now).1.openid = p.openid ∧
    (upsertUser db p now).1.email = p.email ∧
    (upsertUser db p now).1.author_id = none ∧
    (upsertUser db p now).1.picture = p.picture ∧
    (upsertUser db p now).1.metadata = p.metadata ∧
    (upsertUser db p now).1.nickname = fixNickname p now ∧
    (upsertUser db p now).1.token = (if p.type == "facebook" then "" else p.token) := by
  unfold upsertUser
  rw [hf]
  simp only [mergeProfile]
  by_cases hfb : (p.type == "facebook") = true <;> simp [hfb]

/-- A provider callback preserves the store invariant. -/
theorem WF_callback {db : DB} (hwf : WF db) (p : Profile) (now nx : String) :
    WF (authorizeLinker db p now nx).1 := by
  have hshape : (upsertUser db p now).2 = false →
      ∃ temp ∈ db.oauthUsers, (upsertUser db p now).1.id = temp.id ∧
        (upsertUser db p now).1.type = temp.type ∧
        (upsertUser db p now).1.openid = temp.openid := by
    intro hflag
    cases hf : findByPair db p.type p.openid with
    | some temp =>
      obtain ⟨hnew, h1, h2, h3, _⟩ := upsertUser_found hf now
      exact ⟨temp, (mem_of_findByPair hf).1, h1, h2, h3⟩
    | none =>
      obtain ⟨hnew, _⟩ := upsertUser_new hf now
      rw [hnew] at hflag
      cases hflag
  have hshapeNew : (upsertUser db p now).2 = true →
      ∀ x ∈ db.oauthUsers, x.type ≠ (upsertUser db p now).1.type ∨
        x.openid ≠ (upsertUser db p now).1.openid := by
    intro hflag
    cases hf : findByPair db p.type p.openid with
    | some temp =>
      obtain ⟨hnew, _⟩ := upsertUser_found hf now
      rw [hnew] at hflag
      cases hflag
    | none =>
      obtain ⟨hnew, h1, h2, _⟩ := upsertUser_new hf now
      intro x hx
      rw [h1, h2]
      exact pair_absent_of_findByPair_none hf x hx
  have hauthOld : ∀ a, (upsertUser db p now).1.author_id = some a →
      ∃ u ∈ db.users, u.id = a := by
    intro a ha
    cases hf : findByPair db p.type p.openid with
    | some temp =>
      obtain ⟨_, _, _, _, _, hau, _⟩ := upsertUser_found hf now
      rw [hau] at ha
      exact hwf.authorsExist temp (mem_of_findByPair hf).1 a ha
    | none =>
      obtain ⟨_, _, _, _, hau, _⟩ := upsertUser_new hf now
      rw [hau] at ha
      cases ha
  unfold authorizeLinker
  by_cases he : ¬(upsertUser db p now).1.email = ""
  · rw [if_pos he]
    cases hb : (upsertUser db p now).2 with
    | false =>
      exact WF_linkBranch hwf _ false _ now (fun _ => hshape hb) (by intro hc; cases hc)
    | true =>
      exact WF_linkBranch hwf _ true _ now (by intro hc; cases hc) (fun _ => hshapeNew hb)
  · rw [if_neg he]
    cases hb : (upsertUser db p now).2 with
    | false =>
      exact WF_plainSave hwf _ false (fun _ => hshape hb) (by intro hc; cases hc) hauthOld
    | true =>
      exact WF_plainSave hwf _ true (by intro hc; cases hc) (fun _ => hshapeNew hb) hauthOld

theorem save_users (db : DB) (r : OAuthUserRec) (b : Bool) :
    (saveOauthUser db r b).1.users = db.users := by
  cases b <;> simp [saveOauthUser]

/-- An email-form POST preserves the store invariant. -/
theorem WF_submit {db : DB} (hwf : WF db) (secret : String) (oauthid : Nat) (email : String) :
    WF (requireEmailSubmit secret db oauthid email).db := by
  unfold requireEmailSubmit
  cases hr : rowById db oauthid with
  | none => exact hwf
  | some r =>
    obtain ⟨hm, hi⟩ := mem_of_rowById hr
    exact WF_save_update hwf hm rfl rfl rfl (fun a ha => hwf.authorsExist r hm a ha)

/-- A confirmation-link visit preserves the store invariant. -/
theorem WF_confirm {db : DB} (hwf : WF db) (secret : String) (id : Nat)
    (sign now : String) :
    WF (emailconfirm secret db id sign now).1 := by
  unfold emailconfirm
  by_cases hv : verifySign secret id sign = false
  · rw [if_pos hv]
    exact hwf
  · rw [if_neg hv]
    cases hr : rowById db id with
    | none => exact hwf
    | some r =>
      show WF (confirmLink db r id now).1
      unfold confirmLink
      obtain ⟨hm, hi⟩ := mem_of_rowById hr
      cases ha : (resolveAuthorConfirm db r now).2 with
      | none => exact hwf
      | some author =>
        apply WF_session
        obtain ⟨ho, hn, hmem, hsub, _⟩ := resolveAuthorConfirm_state db r now
        have htemp' : r ∈ (resolveAuthorConfirm db r now).1.oauthUsers := by
          rw [ho]
          exact hm
        refine WF_save_update (WF_resolveAuthorConfirm hwf r now) htemp' rfl rfl rfl ?_
        intro a hval
        have hv' : author.id = a := by simpa using hval
        exact ⟨author, hmem author ha, hv'⟩

theorem rowById_session (db : DB) (s : Option Nat) (i : Nat) :
    rowById (withSession db s) i = rowById db i := rfl

/-- State effect of a callback whose merged row carries an email: resolve the
account, save the linked row, set the session. -/
theorem authorizeLinker_email_db (db : DB) (p : Profile) (now nx : String)
    (he : ¬(upsertUser db p now).1.email = "") :
    (authorizeLinker db p now nx).1 =
      withSession
        (saveOauthUser
          (resolveAuthorAuthorize db (upsertUser db p now).1 (fixNickname p now) now).1
          (linkTo (upsertUser db p now).1
            (resolveAuthorAuthorize db (upsertUser db p now).1 (fixNickname p now) now).2.id)
          (upsertUser db p now).2).1
        (some (resolveAuthorAuthorize db (upsertUser db p now).1
            (fixNickname p now) now).2.id) := by
  unfold authorizeLinker
  rw [if_pos he]
  rfl

/-- State effect of a callback whose merged row carries no email: plain save. -/
theorem authorizeLinker_noemail_db (db : DB) (p : Profile) (now nx : String)
    (he : (upsertUser db p now).1.email = "") :
    (authorizeLinker db p now nx).1 =
      (saveOauthUser db (upsertUser db p now).1 (upsertUser db p now).2).1 := by
  unfold authorizeLinker
  rw [if_neg (not_not_intro he)]

/-- State effect of a successful email-form POST. -/
theorem requireEmailSubmit_db {db : DB} {oauthid : Nat} {x : OAuthUserRec}
    (hx : rowById db oauthid = some x) (secret email : String) :
    (requireEmailSubmit secret db oauthid email).db =
      (saveOauthUser db { x with email := email } false).1 := by
  unfold requireEmailSubmit
  rw [hx]

/-- State effect of a confirmation-link visit that passes all checks. -/
theorem emailconfirm_db {db : DB} {cid : Nat} {x : OAuthUserRec} {author : BlogUserRec}
    (hv : ¬verifySign secret cid sign = false) (hx : rowById db cid = some x)
    (hax : (resolveAuthorConfirm db x now).2 = some author) :
    (emailconfirm secret db cid sign now).1 =
      withSession
        (saveOauthUser (resolveAuthorConfirm db x now).1
          { x with author_id := some author.id } false).1
        (some author.id) := by
  unfold emailconfirm
  rw [if_neg hv, hx]
  show (confirmLink db x cid now).1 = _
  unfold confirmLink
  rw [hax]

/-- Any single request keeps a linked identity row present, with its pair and
its linked account unchanged. -/
theorem step_preserves_link {db : DB} (hwf : WF db) (secret : String) (op : Op)
    {i : Nat} {r : OAuthUserRec} (hr : rowById db i = some r) {a : Nat}
    (ha : r.author_id = some a) :
    ∃ r', rowById (step secret db op) i = some r' ∧ r'.author_id = some a ∧
      r'.type = r.type ∧ r'.openid = r.openid := by
  obtain ⟨hmr, hir⟩ := mem_of_rowById hr
  cases op with
  | callback p now nx =>
    show ∃ r', rowById (authorizeLinker db p now nx).1 i = some r' ∧ _
    by_cases he : (upsertUser db p now).1.email = ""
    · -- no linking: a plain save of the merged row
      rw [authorizeLinker_noemail_db db p now nx he]
      cases hf : findByPair db p.type p.openid with
      | none =>
        obtain ⟨hnew, _⟩ := upsertUser_new hf now
        rw [hnew, rowById_save_new, hr]
        exact ⟨r, by simp, ha, rfl, rfl⟩
      | some temp =>
        obtain ⟨hnew, hUid, hUty, hUop, hUem, hUau, _⟩ := upsertUser_found hf now
        rw [hnew, rowById_save_update, hr]
        by_cases hsame : temp.id = i
        · have htr : temp = r := by
            have h1 := rowById_eq_of_mem hwf (mem_of_findByPair hf).1
            rw [hsame, hr] at h1
            exact (Option.some.inj h1).symm
          have hc : r.id = (upsertUser db p now).1.id := by
            rw [hUid, htr]
          refine ⟨(upsertUser db p now).1, by simp [hc], ?_, ?_, ?_⟩
          · rw [hUau, htr]
            exact ha
          · rw [hUty, htr]
          · rw [hUop, htr]
        · have hc : ¬r.id = (upsertUser db p now).1.id := by
            rw [hUid, hir]
            exact fun hcc => hsame hcc.symm
          exact ⟨r, by simp [hc], ha, rfl, rfl⟩
    · -- linking branch
      rw [authorizeLinker_email_db db p now nx he, rowById_session]
      obtain ⟨ho, _, _, _, _⟩ :=
        resolveAuthorAuthorize_state db (upsertUser db p now).1 (fixNickname p now) now
      cases hf : findByPair db p.type p.openid with
      | none =>
        obtain ⟨hnew, _⟩ := upsertUser_new hf now
        rw [hnew, rowById_save_new, rowById_eq_of_rows_eq ho, hr]
        exact ⟨r, by simp, ha, rfl, rfl⟩
      | some temp =>
        obtain ⟨hnew, hUid, hUty, hUop, hUem, hUau, _⟩ := upsertUser_found hf now
        rw [hnew, rowById_save_update, rowById_eq_of_rows_eq ho, hr]
        by_cases hsame : temp.id = i
        · have htr : temp = r := by
            have h1 := rowById_eq_of_mem hwf (mem_of_findByPair hf).1
            rw [hsame, hr] at h1
            exact (Option.some.inj h1).symm
          have hUa : (upsertUser db p now).1.author_id = some a := by
            rw [hUau, htr]
            exact ha
          rcases findUserById_of_exists (hwf.authorsExist r hmr a ha) with ⟨u, hu, hua⟩
          rw [resolveAuthorAuthorize_linked hUa hu]
          have hc : r.id = (linkTo (upsertUser db p now).1 u.id).id := by
            show r.id = (upsertUser db p now).1.id
            rw [hUid, htr]
          refine ⟨linkTo (upsertUser db p now).1 u.id, by simp [hc], ?_, ?_, ?_⟩
          · show some u.id = some a
            rw [hua]
          · show (upsertUser db p now).1.type = r.type
            rw [hUty, htr]
          · show (upsertUser db p now).1.openid = r.openid
            rw [hUop, htr]
        · have hc : ¬r.id = (linkTo (upsertUser db p now).1
              (resolveAuthorAuthorize db (upsertUser db p now).1
                (fixNickname p now) now).2.id).id := by
            show ¬r.id = (upsertUser db p now).1.id
            rw [hUid, hir]
            exact fun hcc => hsame hcc.symm
          exact ⟨r, by simp [hc], ha, rfl, rfl⟩
  | submitEmail oid email =>
    show ∃ r', rowById (requireEmailSubmit secret db oid email).db i = some r' ∧ _
    cases hx : rowById db oid with
    | none =>
      have hred : (requireEmailSubmit secret db oid email).db = db := by
        unfold requireEmailSubmit
        rw [hx]
      rw [hred]
      exact ⟨r, hr, ha, rfl, rfl⟩
    | some x =>
      rw [requireEmailSubmit_db hx secret email, rowById_save_update, hr]
      by_cases hxi : r.id = x.id
      · have hxr : x = r := by
          obtain ⟨hmx, hix⟩ := mem_of_rowById hx
          exact List.inj_on_of_nodup_map hwf.oauthIdsNodup hmx hmr (by rw [hxi])
        have hc : r.id = ({ x with email := email } : OAuthUserRec).id := by
          show r.id = x.id
          exact hxi
        refine ⟨{ x with email := email }, by simp [hc], ?_, ?_, ?_⟩
        · show x.author_id = some a
          rw [hxr]
          exact ha
        · show x.type = r.type
          rw [hxr]
        · show x.openid = r.openid
          rw [hxr]
      · have hc : ¬r.id = ({ x with email := email } : OAuthUserRec).id := by
          show ¬r.id = x.id
          exact hxi
        exact ⟨r, by simp [hc], ha, rfl, rfl⟩
  | confirm cid sign now =>
    show ∃ r', rowById (emailconfirm secret db cid sign now).1 i = some r' ∧ _
    by_cases hv : verifySign secret cid sign = false
    · have hred : emailconfirm secret db cid sign now = (db, .forbidden) := by
        unfold emailconfirm
        rw [if_pos hv]
      rw [hred]
      exact ⟨r, hr, ha, rfl, rfl⟩
    · cases hx : rowById db cid with
      | none =>
        have hred : emailconfirm secret db cid sign now = (db, .notFound) := by
          unfold emailconfirm
          rw [if_neg hv, hx]
        rw [hred]
        exact ⟨r, hr, ha, rfl, rfl⟩
      | some x =>
        cases hax : (resolveAuthorConfirm db x now).2 with
        | none =>
          have hred : emailconfirm secret db cid sign now = (db, .serverError) := by
            unfold emailconfirm
            rw [if_neg hv, hx]
            show confirmLink db x cid now = _
            unfold confirmLink
            rw [hax]
          rw [hred]
          exact ⟨r, hr, ha, rfl, rfl⟩
        | some author =>
          obtain ⟨ho, _, _, _, _⟩ := resolveAuthorConfirm_state db x now
          rw [emailconfirm_db hv hx hax, rowById_session, rowById_save_update,
            rowById_eq_of_rows_eq ho, hr]
          by_cases hxi : r.id = x.id
          · have hxr : x = r := by
              obtain ⟨hmx, hix⟩ := mem_of_rowById hx
              exact List.inj_on_of_nodup_map hwf.oauthIdsNodup hmx hmr (by rw [hxi])
            have hau : author.id = a := by
              subst hxr
              rw [resolveAuthorConfirm_linked ha now] at hax
              exact (mem_of_findUserById hax).2
            have hc : r.id = ({ x with author_id := some author.id } : OAuthUserRec).id := by
              show r.id = x.id
              exact hxi
            refine ⟨{ x with author_id := some author.id }, by simp [hc], ?_, ?_, ?_⟩
            · show some author.id = some a
              rw [hau]
            · show x.type = r.type
              rw [hxr]
            · show x.openid = r.openid
              rw [hxr]
          · have hc : ¬r.id = ({ x with author_id := some author.id } : OAuthUserRec).id := by
              show ¬r.id = x.id
              exact hxi
            exact ⟨r, by simp [hc], ha, rfl, rfl⟩

theorem users_withSession (db : DB) (s : Option Nat) : (withSession db s).users = db.users :=
  rfl

/-- At a linked identity, a repeat callback for its pair — or a
confirmation-link visit for its id — creates no local account. -/
theorem linked_target_no_new_account {db : DB} (hwf : WF db) {i : Nat} {r : OAuthUserRec}
    (hr : rowById db i = some r) {a : Nat} (ha : r.author_id = some a) :
    (∀ p now nx, p.type = r.type → p.openid = r.openid →
        (authorizeLinker db p now nx).1.users = db.users) ∧
    (∀ secret sign now, (emailconfirm secret db i sign now).1.users = db.users) := by
  obtain ⟨hmr, hir⟩ := mem_of_rowById hr
  constructor
  · intro p now nx hpt hpo
    have hf : findByPair db p.type p.openid = some r := by
      rw [hpt, hpo]
      exact findByPair_eq_of_mem hwf hmr
    obtain ⟨hnew, hUid, hUty, hUop, hUem, hUau, _⟩ := upsertUser_found hf now
    by_cases he : (upsertUser db p now).1.email = ""
    · rw [authorizeLinker_noemail_db db p now nx he, save_users]
    · rw [authorizeLinker_email_db db p now nx he]
      have hUa : (upsertUser db p now).1.author_id = some a := by
        rw [hUau]
        exact ha
      rcases findUserById_of_exists (hwf.authorsExist r hmr a ha) with ⟨u, hu, hua⟩
      rw [resolveAuthorAuthorize_linked hUa hu, users_withSession, save_users]
  · intro secret sign now
    by_cases hv : verifySign secret i sign = false
    · have hred : emailconfirm secret db i sign now = (db, .forbidden) := by
        unfold emailconfirm
        rw [if_pos hv]
      rw [hred]
    · rcases findUserById_of_exists (hwf.authorsExist r hmr a ha) with ⟨u, hu, hua⟩
      have hax : (resolveAuthorConfirm db r now).2 = some u := by
        rw [resolveAuthorConfirm_linked ha now]
        exact hu
      rw [emailconfirm_db hv hr hax, users_withSession, save_users,
        resolveAuthorConfirm_linked ha now]

theorem WF_step {db : DB} (hwf : WF db) (secret : String) (op : Op) :
    WF (step secret db op) := by
  cases op with
  | callback p now nx => exact WF_callback hwf p now nx
  | submitEmail oid email => exact WF_submit hwf secret oid email
  | confirm id sign now => exact WF_confirm hwf secret id sign now

theorem WF_run {db : DB} (hwf : WF db) (secret : String) (ops : List Op) :
    WF (run secret db ops) := by
  induction ops generalizing db with
  | nil => exact hwf
  | cons op ops ih => exact ih (WF_step hwf secret op)

/-- Linked rows persist, with pair and account unchanged, through any
request sequence. -/
theorem run_preserves_link {db : DB} (hwf : WF db) (secret : String) (ops : List Op)
    {i : Nat} {r : OAuthUserRec} (hr : rowById db i = some r) {a : Nat}
    (ha : r.author_id = some a) :
    ∃ r', rowById (run secret db ops) i = some r' ∧ r'.author_id = some a ∧
      r'.type = r.type ∧ r'.openid = r.openid := by
  induction ops generalizing db r with
  | nil => exact ⟨r, hr, ha, rfl, rfl⟩
  | cons op ops ih =>
    rcases step_preserves_link hwf secret op hr ha with ⟨r', h1, h2, h3, h4⟩
    rcases ih (WF_step hwf secret op) h1 h2 with ⟨r'', g1, g2, g3, g4⟩
    exact ⟨r'', g1, g2, g3.trans h3, g4.trans h4⟩

/-! ## Digest shape lemmas used by the claim theorems -/

theorem get_sha256_ne_empty {s : String} (h : s ≠ "") : get_sha256 s ≠ "" := by
  intro hc
  apply h
  apply strUpper_get_sha256_inj
  rw [hc]
  rfl

theorem mid_append_ne_empty (a : String) {b : String} (c : String) (h : b ≠ "") :
    a ++ b ++ c ≠ "" := by
  intro hc
  apply h
  have hd := congrArg String.data hc
  simp only [String.data_append] at hd
  rcases List.append_eq_nil.mp hd with ⟨hab, _⟩
  rcases List.append_eq_nil.mp hab with ⟨_, hb⟩
  exact String.ext (by simp [hb])

/-! ## Claim theorems -/

/-- C4 counterexample: a callback whose token exchange raises
`OAuthAccessTokenException` is answered with a redirect to `/`, not to the
manager's authorization URL. -/
theorem token_error_redirect_counterexample :
    authorize DB.empty (fun n => "https://api.weibo.com/oauth2/authorize?next=" ++ n)
        ExchangeResult.tokenError none "N" "/" = (DB.empty, Response.redirect "/") ∧
    ("/" : String) ≠ "https://api.weibo.com/oauth2/authorize?next=/" :=
  ⟨rfl, by decide⟩

/-- C4 (amended): on `OAuthAccessTokenException` the callback handler
redirects to the home page `/`; the redirect back to the authorization URL
for a retry happens when the token exchange returns a falsy result or raises
any other exception. -/
theorem token_exchange_failure_dispatch (db : DB) (authUrl : String → String)
    (profile : Option Profile) (now nexturl : String) :
    authorize db authUrl ExchangeResult.tokenError profile now nexturl =
      (db, Response.redirect "/") ∧
    authorize db authUrl ExchangeResult.failed profile now nexturl =
      (db, Response.redirect (authUrl nexturl)) :=
  ⟨rfl, rfl⟩

/-- C5: the confirmation link `(id, sign)` is accepted iff `sign` equals,
under case-insensitive comparison, the keyed digest
`get_sha256(SECRET_KEY + str(id) + SECRET_KEY)` — acceptance depends on
nothing else — and any rejected signature yields the 403 with no state
change. -/
theorem confirm_signature_iff (secret : String) (id : Nat) (sign : String)
    (db : DB) (now : String) :
    (verifySign secret id sign = true ↔
      strUpper sign = strUpper (get_sha256 (secret ++ Nat.repr id ++ secret))) ∧
    (verifySign secret id sign = false →
      emailconfirm secret db id sign now = (db, Response.forbidden)) := by
  constructor
  · constructor
    · intro h
      exact ((verify_iff_upper_eq (sign_nonempty_of_verify h)).mp h).symm
    · intro h
      have hdig : get_sha256 (secret ++ Nat.repr id ++ secret) ≠ "" :=
        get_sha256_ne_empty (mid_append_ne_empty secret secret (repr_ne_empty id))
      have hsign : sign ≠ "" := by
        intro hc
        rw [hc] at h
        exact hdig ((strUpper_empty_iff _).mp (by rw [← h]; rfl))
      exact (verify_iff_upper_eq hsign).mpr h.symm
  · intro h
    unfold emailconfirm
    rw [if_pos h]

/-- C5 witness: a concrete non-matching signature is rejected with a 403 and
the state untouched. -/
theorem confirm_signature_iff_witness :
    verifySign "k" 7 "zz" = false ∧
    emailconfirm "k" DB.empty 7 "zz" "n" = (DB.empty, Response.forbidden) :=
  ⟨by decide, (confirm_signature_iff "k" 7 "zz" DB.empty "n").2 (by decide)⟩

/-- C6 counterexample: a valid link whose signature is mutated in one
character — a lowercase hex letter replaced by its uppercase form — is still
accepted, because the comparison is case-insensitive; so not every
single-character mutation flips the verification result. -/
theorem one_char_mutation_counterexample :
    verifySign "k" 7 "00006b00003700006b" = true ∧
    oneCharDiff "00006b00003700006b" "00006B00003700006b" ∧
    ("00006B00003700006b" : String) ≠ "00006b00003700006b" ∧
    verifySign "k" 7 "00006B00003700006b" = true := by
  refine ⟨by decide, by decide, by decide, by decide⟩

/-- C6 (amended): for an accepted link, changing the id to one with a
different decimal form always flips verification to reject; changing one
character of the signature flips the result exactly when the change is not
letter-case-only — a case-only change keeps the link accepted. -/
theorem one_char_mutation_amended (secret : String) (id : Nat) (sign : String)
    (h : verifySign secret id sign = true) :
    (∀ id' : Nat, Nat.repr id' ≠ Nat.repr id → verifySign secret id' sign = false) ∧
    (∀ sign', oneCharDiff sign sign' →
      (verifySign secret id sign' = true ↔ strUpper sign' = strUpper sign)) := by
  constructor
  · intro id' hne
    exact verify_other_id h hne
  · intro sign' _
    exact verify_same_upper h

/-- C6 witness: at the concrete valid link, a different id is rejected and
the case-flipped signature is accepted. -/
theorem one_char_mutation_amended_witness :
    verifySign "k" 8 "00006b00003700006b" = false ∧
    (verifySign "k" 7 "00006B00003700006b" = true ↔
      strUpper "00006B00003700006b" = strUpper "00006b00003700006b") :=
  ⟨(one_char_mutation_amended "k" 7 "00006b00003700006b" (by decide)).1 8 (by decide),
   (one_char_mutation_amended "k" 7 "00006b00003700006b" (by decide)).2
     "00006B00003700006b" (by decide)⟩

/-- C7 counterexample: a non-empty token response that lacks the
`access_token` field makes the QQ adapter return `None` instead of raising
`OAuthAccessTokenException`. -/
theorem qq_missing_token_counterexample :
    (parse_qs "foo=bar").lookup "access_token" = none ∧
    qq_get_access_token_by_code "foo=bar" = Except.ok none ∧
    github_get_access_token_by_code "foo=bar" = Except.error "foo=bar" := by
  refine ⟨by decide, rfl, rfl⟩

/-- C7 (amended): the GitHub adapter raises `OAuthAccessTokenException`
whenever the response lacks the `access_token` field; the QQ adapter raises
only when the response text is empty, and returns `None` — no exception —
when a non-empty response lacks the field. Neither adapter touches any
stored record (their embeddings are pure functions of the response text). -/
theorem token_field_absence_dispatch (rsp : String) :
    ((parse_qs rsp).lookup "access_token" = none →
      github_get_access_token_by_code rsp = Except.error rsp) ∧
    (rsp ≠ "" → (parse_qs rsp).lookup "access_token" = none →
      qq_get_access_token_by_code rsp = Except.ok none) ∧
    (rsp = "" → qq_get_access_token_by_code rsp = Except.error rsp) := by
  refine ⟨?_, ?_, ?_⟩
  · intro h
    unfold github_get_access_token_by_code
    rw [h]
  · intro hne h
    unfold qq_get_access_token_by_code
    rw [if_pos hne]
    simp [h]
  · intro he
    unfold qq_get_access_token_by_code
    rw [if_neg (not_not_intro he)]

/-- C7 witness: the three dispatch outcomes at concrete responses. -/
theorem token_field_absence_dispatch_witness :
    github_get_access_token_by_code "a=b" = Except.error "a=b" ∧
    qq_get_access_token_by_code "a=b" = Except.ok none ∧
    qq_get_access_token_by_code "" = Except.error "" :=
  ⟨(token_field_absence_dispatch "a=b").1 (by decide),
   (token_field_absence_dispatch "a=b").2.1 (by decide) (by decide),
   (token_field_absence_dispatch "").2.2 rfl⟩

/-- An unlinked weibo identity row with stale cached fields. -/
def staleRow : OAuthUserRec :=
  { id := 1, type := "weibo", openid := "u1", nickname := "old", token := "oldtok",
    picture := "oldpic", email := "", metadata := "oldmeta", author_id := none }

/-- A one-row store holding `staleRow`, for concrete instances. -/
def staleDB : DB :=
  { oauthUsers := [staleRow], users := [], nextOauthId := 2, nextUserId := 1,
    sessionUser := none }

/-- A freshly fetched weibo profile for the same external identity. -/
def freshProfile : Profile :=
  { type := "weibo", openid := "u1", nickname := "new", token := "newtok",
    picture := "newpic", email := "", metadata := "newmeta" }

/-- An identity row already linked to account 1 and already storing an
email. -/
def linkedRow : OAuthUserRec :=
  { id := 1, type := "weibo", openid := "u1", nickname := "old", token := "t",
    picture := "p", email := "old@x.com", metadata := "m", author_id := some 1 }

/-- The account `linkedRow` points at. -/
def linkedUser : BlogUserRec :=
  { id := 1, username := "old", email := "old@x.com", source := "authorize" }

/-- A store whose identity is already linked and already carries a stored
email, for concrete instances. -/
def linkedDB : DB :=
  { oauthUsers := [linkedRow], users := [linkedUser], nextOauthId := 2, nextUserId := 2,
    sessionUser := none }

theorem wf_staleDB : WF staleDB := by
  refine ⟨?_, ?_, ?_, ?_, ?_, ?_⟩
  · simp [staleDB]
  · simp [staleDB]
  · intro r hr
    have hr' : r = staleRow := List.mem_singleton.mp hr
    rw [hr']
    decide
  · simp [staleDB]
  · intro u hu
    simp [staleDB] at hu
  · intro r hr a ha
    have hr' : r = staleRow := List.mem_singleton.mp hr
    rw [hr'] at ha
    exact Option.noConfusion ha

/-- C2: every reachable state keeps at most one `OAuthUser` row per
`(type, openid)` pair; a linked identity keeps exactly its one account
through any request sequence; and at any reachable state a further callback
for its pair, or a confirmation visit for its id, creates no local
account. -/
theorem unique_identity_invariant (secret : String) (db : DB) (hwf : WF db)
    (ops : List Op) :
    WF (run secret db ops) ∧
    (∀ t o, countPair (run secret db ops) t o ≤ 1) ∧
    (∀ i r a, rowById db i = some r → r.author_id = some a →
      ∃ r', rowById (run secret db ops) i = some r' ∧ r'.author_id = some a ∧
        r'.type = r.type ∧ r'.openid = r.openid) ∧
    (∀ i r a, rowById (run secret db ops) i = some r → r.author_id = some a →
      (∀ p now nx, p.type = r.type → p.openid = r.openid →
        (authorizeLinker (run secret db ops) p now nx).1.users =
          (run secret db ops).users) ∧
      (∀ sign now, (emailconfirm secret (run secret db ops) i sign now).1.users =
        (run secret db ops).users)) := by
  have hwfr := WF_run hwf secret ops
  refine ⟨hwfr, fun t o => countPair_le_one hwfr t o, ?_, ?_⟩
  · intro i r a hr ha
    exact run_preserves_link hwf secret ops hr ha
  · intro i r a hr ha
    exact ⟨(linked_target_no_new_account hwfr hr ha).1,
      fun sign now => (linked_target_no_new_account hwfr hr ha).2 secret sign now⟩

/-- A weibo profile carrying an email, for concrete instances. -/
def emailProfile : Profile :=
  { type := "weibo", openid := "u1", nickname := "n", token := "t",
    picture := "p", email := "e@x.com", metadata := "m" }

/-- C2 witness: two repeated successful callbacks for the same pair starting
from the empty store leave at most one row for it. -/
theorem unique_identity_invariant_witness :
    countPair (run "s" DB.empty
      [Op.callback emailProfile "N" "/", Op.callback emailProfile "N2" "/"])
      "weibo" "u1" ≤ 1 :=
  (unique_identity_invariant "s" DB.empty wf_empty _).2.1 "weibo" "u1"

/-- C8 counterexample: on a repeat callback for an existing row, the fresh
`access_token` is not written to the store — the stored token keeps its
stale value even though picture/metadata/nickname are refreshed. -/
theorem refresh_counterexample :
    (rowById (authorizeLinker staleDB freshProfile "N" "/").1 1).map (fun r => r.token)
      = some "oldtok" ∧
    (rowById (authorizeLinker staleDB freshProfile "N" "/").1 1).map (fun r => r.picture)
      = some "newpic" ∧
    ("oldtok" : String) ≠ "newtok" := by decide

/-- C8 (amended): a callback that finds an existing row refreshes its
`picture` (avatar), `metadata` (raw profile) and `nickname` (display name)
from the fresh profile before any linking decision, while `access_token`
retains its stored value (for Facebook it is cleared) and the stored email
is kept. -/
theorem refresh_on_callback {db : DB} (hwf : WF db) {p : Profile} {temp : OAuthUserRec}
    (hf : findByPair db p.type p.openid = some temp) (now nx : String) :
    ∃ r', rowById (authorizeLinker db p now nx).1 temp.id = some r' ∧
      r'.picture = p.picture ∧ r'.metadata = p.metadata ∧
      r'.nickname = fixNickname p now ∧
      r'.token = (if p.type == "facebook" then "" else temp.token) ∧
      r'.email = temp.email := by
  obtain ⟨hnew, hUid, hUty, hUop, hUem, hUau, hUpic, hUmeta, hUnick, hUtok⟩ :=
    upsertUser_found hf now
  have htmp := rowById_eq_of_mem hwf (mem_of_findByPair hf).1
  by_cases he : (upsertUser db p now).1.email = ""
  · rw [authorizeLinker_noemail_db db p now nx he, hnew, rowById_save_update, htmp]
    have hc : temp.id = (upsertUser db p now).1.id := hUid.symm
    exact ⟨(upsertUser db p now).1, by simp [hc], hUpic, hUmeta, hUnick, hUtok, hUem⟩
  · obtain ⟨ho, _, _, _, _⟩ :=
      resolveAuthorAuthorize_state db (upsertUser db p now).1 (fixNickname p now) now
    rw [authorizeLinker_email_db db p now nx he, rowById_session, hnew, rowById_save_update,
      rowById_eq_of_rows_eq ho, htmp]
    have hc : temp.id = (linkTo (upsertUser db p now).1
        (resolveAuthorAuthorize db (upsertUser db p now).1
          (fixNickname p now) now).2.id).id := by
      show temp.id = (upsertUser db p now).1.id
      exact hUid.symm
    exact ⟨linkTo (upsertUser db p now).1
        (resolveAuthorAuthorize db (upsertUser db p now).1 (fixNickname p now) now).2.id,
      by simp [hc], hUpic, hUmeta, hUnick, hUtok, hUem⟩

/-- C8 witness: the amended refresh behavior at the concrete stale store. -/
theorem refresh_on_callback_witness :
    ∃ r', rowById (authorizeLinker staleDB freshProfile "N" "/").1 1 = some r' ∧
      r'.picture = freshProfile.picture ∧ r'.metadata = freshProfile.metadata ∧
      r'.nickname = fixNickname freshProfile "N" ∧
      r'.token = (if freshProfile.type == "facebook" then ""
        else "oldtok") ∧
      r'.email = "" :=
  refresh_on_callback wf_staleDB
    (show findByPair staleDB freshProfile.type freshProfile.openid = some staleRow by decide)
    "N" "/"

/-- C10: submitting the email form has no precondition beyond the row's
existence — no session, ownership or prior-state check. For any existing
identity (already carrying an email or already linked included) and any
submitted email, the POST overwrites the stored email with the submitted
value, mails a confirmation link for the row's id signed with
`get_sha256(secret + str(id) + secret)` to that address, redirects to
bindsuccess, and creates no account. -/
theorem submit_email_unconditional (secret : String) (db : DB) (oauthid : Nat)
    (email : String) {r : OAuthUserRec} (hr : rowById db oauthid = some r) :
    (requireEmailSubmit secret db oauthid email).db.users = db.users ∧
    rowById (requireEmailSubmit secret db oauthid email).db oauthid =
      some { r with email := email } ∧
    (requireEmailSubmit secret db oauthid email).sentTo = some email ∧
    (requireEmailSubmit secret db oauthid email).link =
      some (oauthid, get_sha256 (secret ++ Nat.repr oauthid ++ secret)) ∧
    (requireEmailSubmit secret db oauthid email).response =
      Response.redirect ("/oauth/bindsuccess/" ++ Nat.repr oauthid ++ ".html?type=email") := by
  obtain ⟨hmr, hir⟩ := mem_of_rowById hr
  have h1 := requireEmailSubmit_db hr secret email
  refine ⟨?_, ?_, ?_, ?_, ?_⟩
  · rw [h1, save_users]
  · rw [h1, rowById_save_update, hr]
    simp
  · unfold requireEmailSubmit
    rw [hr]
  · unfold requireEmailSubmit
    rw [hr]
    show some (oauthid, get_sha256 (secret ++ Nat.repr r.id ++ secret)) = _
    rw [hir]
  · unfold requireEmailSubmit
    rw [hr]

/-- C10 witness: the POST succeeds even on an identity that is already
linked and already stores an email. -/
theorem submit_email_unconditional_witness :
    (requireEmailSubmit "s" linkedDB 1 "new@y.com").sentTo = some "new@y.com" ∧
    rowById (requireEmailSubmit "s" linkedDB 1 "new@y.com").db 1 =
      some { linkedRow with email := "new@y.com" } ∧
    (requireEmailSubmit "s" linkedDB 1 "new@y.com").db.users = linkedDB.users :=
  ⟨(submit_email_unconditional "s" linkedDB 1 "new@y.com"
      (show rowById linkedDB 1 = some linkedRow by decide)).2.2.1,
   (submit_email_unconditional "s" linkedDB 1 "new@y.com"
      (show rowById linkedDB 1 = some linkedRow by decide)).2.1,
   (submit_email_unconditional "s" linkedDB 1 "new@y.com"
      (show rowById linkedDB 1 = some linkedRow by decide)).1⟩

/-- A weibo profile with no email, as fetched on both callbacks of the C1
trace. -/
def noEmailProfile : Profile :=
  { type := "weibo", openid := "u1", nickname := "alice", token := "tk",
    picture := "pic", email := "", metadata := "m" }

/-- C1: executing the trace — callback with no provider email, email
submitted on the form, repeat callback — against the empty store links the
identity (`author_id` set, an account created from the *unconfirmed*
address, session established) although no confirmation link was ever
visited: the repeat callback merges the stored row and its `if user.email:`
test reads the stored unverified email. Before the repeat callback the row
was still unlinked. -/
theorem unverified_email_links_on_repeat_callback :
    (rowById (run "s" DB.empty
        [Op.callback noEmailProfile "N1" "/", Op.submitEmail 1 "b@y.com"]) 1).map
        (fun r => r.author_id) = some none ∧
    (rowById (run "s" DB.empty
        [Op.callback noEmailProfile "N1" "/", Op.submitEmail 1 "b@y.com",
         Op.callback noEmailProfile "N2" "/"]) 1).map (fun r => r.author_id)
      = some (some 1) ∧
    (run "s" DB.empty
        [Op.callback noEmailProfile "N1" "/", Op.submitEmail 1 "b@y.com",
         Op.callback noEmailProfile "N2" "/"]).sessionUser = some 1 ∧
    (run "s" DB.empty
        [Op.callback noEmailProfile "N1" "/", Op.submitEmail 1 "b@y.com",
         Op.callback noEmailProfile "N2" "/"]).users.map (fun u => u.email)
      = ["b@y.com"] := by decide

/-- C3: the same-site check strips `www.` anywhere in the host (Python
`replace`), so the attacker-registrable host `ewww.xample.com` — which
strips to `example.com` but is a subdomain of the foreign domain
`xample.com` — passes the check and `get_redirecturl` returns the off-site
URL instead of `/`. A plainly foreign host is still rejected. -/
theorem open_redirect_failing_input :
    get_redirecturl "example.com" (some "http://ewww.xample.com/") =
      "http://ewww.xample.com/" ∧
    netlocOf "http://ewww.xample.com/" = "ewww.xample.com" ∧
    ("ewww.xample.com" : String) ≠ "example.com" ∧
    ("ewww.xample.com" : String) ≠ "www.example.com" ∧
    (".example.com" : String).data.isSuffixOf ("ewww.xample.com" : String).data = false ∧
    get_redirecturl "example.com" (some "http://evil.com/") = "/" := by decide

/-- C9: for every adapter, re-extracting the avatar from the stored raw
profile (`get_picture` on `metadata`) returns exactly the avatar that
`get_oauth_userinfo` placed in the profile, whenever the payload carries the
avatar field — a pure round trip, no network call. -/
theorem avatar_round_trip :
    (∀ (auth : Bool) (tok : String) (datas : Json) (u : FetchedUser),
      wb_get_oauth_userinfo auth tok datas = some u →
      wb_get_picture u.metadata = u.picture) ∧
    (∀ (tok : String) (datas : Json) (u : FetchedUser),
      github_get_oauth_userinfo tok datas = some u →
      github_get_picture u.metadata = u.picture) ∧
    (∀ (auth : Bool) (tok : String) (datas : Json) (u : FetchedUser),
      google_get_oauth_userinfo auth tok datas = some u →
      google_get_picture u.metadata = u.picture) ∧
    (∀ (tok : String) (datas : Json) (u : FetchedUser),
      facebook_get_oauth_userinfo tok datas = some u → u.picture.isSome →
      facebook_get_picture u.metadata = u.picture) ∧
    (∀ (tok : String) (openid : Option String) (obj : Json) (u : FetchedUser),
      qq_get_oauth_userinfo tok openid obj = some u →
      qq_get_picture u.metadata = u.picture) := by
  refine ⟨?_, ?_, ?_, ?_, ?_⟩
  · intro auth tok datas u h
    unfold wb_get_oauth_userinfo at h
    split at h
    · exact Option.noConfusion h
    · cases h1 : datas.get? "avatar_large" with
      | none => rw [h1] at h; exact Option.noConfusion h
      | some pic =>
        cases h2 : datas.get? "screen_name" with
        | none => rw [h1, h2] at h; exact Option.noConfusion h
        | some name =>
          cases h3 : datas.get? "id" with
          | none => rw [h1, h2, h3] at h; exact Option.noConfusion h
          | some oid =>
            rw [h1, h2, h3] at h
            obtain rfl := Option.some.inj h
            exact h1
  · intro tok datas u h
    unfold github_get_oauth_userinfo at h
    cases h1 : datas.get? "avatar_url" with
    | none => rw [h1] at h; exact Option.noConfusion h
    | some pic =>
      cases h2 : datas.get? "name" with
      | none => rw [h1, h2] at h; exact Option.noConfusion h
      | some name =>
        cases h3 : datas.get? "id" with
        | none => rw [h1, h2, h3] at h; exact Option.noConfusion h
        | some oid =>
          rw [h1, h2, h3] at h
          obtain rfl := Option.some.inj h
          exact h1
  · intro auth tok datas u h
    unfold google_get_oauth_userinfo at h
    split at h
    · exact Option.noConfusion h
    · cases h1 : datas.get? "picture" with
      | none => rw [h1] at h; exact Option.noConfusion h
      | some pic =>
        cases h2 : datas.get? "name" with
        | none => rw [h1, h2] at h; exact Option.noConfusion h
        | some name =>
          cases h3 : datas.get? "sub" with
          | none => rw [h1, h2, h3] at h; exact Option.noConfusion h
          | some oid =>
            cases h4 : datas.get? "email" with
            | none => rw [h1, h2, h3, h4] at h; exact Option.noConfusion h
            | some e =>
              rw [h1, h2, h3, h4] at h
              obtain rfl := Option.some.inj h
              exact h1
  · intro tok datas u h hsome
    unfold facebook_get_oauth_userinfo at h
    cases h1 : datas.get? "name" with
    | none => rw [h1] at h; exact Option.noConfusion h
    | some name =>
      cases h2 : datas.get? "id" with
      | none => rw [h1, h2] at h; exact Option.noConfusion h
      | some oid =>
        rw [h1, h2] at h
        cases h3 : fb_picture_guard datas with
        | none => rw [h3] at h; exact Option.noConfusion h
        | some b =>
          rw [h3] at h
          obtain rfl := Option.some.inj h
          cases b with
          | false => simp at hsome
          | true => rfl
  · intro tok openid obj u h
    unfold qq_get_oauth_userinfo at h
    cases openid with
    | none => exact Option.noConfusion h
    | some oid =>
      cases h1 : obj.get? "nickname" with
      | none => rw [h1] at h; exact Option.noConfusion h
      | some name =>
        rw [h1] at h
        obtain rfl := Option.some.inj h
        rfl

/-- A weibo profile payload. -/
def wbPayload : Json :=
  Json.obj [("avatar_large", Json.str "A"), ("screen_name", Json.str "N"),
    ("id", Json.str "I")]

/-- A GitHub profile payload. -/
def githubPayload : Json :=
  Json.obj [("avatar_url", Json.str "A"), ("name", Json.str "N"), ("id", Json.str "I")]

/-- A Google profile payload. -/
def googlePayload : Json :=
  Json.obj [("picture", Json.str "A"), ("name", Json.str "N"), ("sub", Json.str "I"),
    ("email", Json.str "e@x.com")]

/-- A Facebook profile payload with its nested picture object. -/
def facebookPayload : Json :=
  Json.obj [("name", Json.str "N"), ("id", Json.str "I"),
    ("picture", Json.obj [("data", Json.obj [("url", Json.str "U")])])]

/-- A QQ profile payload. -/
def qqPayload : Json :=
  Json.obj [("nickname", Json.str "N"), ("figureurl", Json.str "F")]

/-- C9 witness: the round trip at one concrete payload per adapter. -/
theorem avatar_round_trip_witness :
    wb_get_picture wbPayload = some (Json.str "A") ∧
    github_get_picture githubPayload = some (Json.str "A") ∧
    google_get_picture googlePayload = some (Json.str "A") ∧
    facebook_get_picture facebookPayload = some (Json.str "U") ∧
    qq_get_picture qqPayload = some (Json.str "F") :=
  ⟨avatar_round_trip.1 true "t" wbPayload
      { metadata := wbPayload, picture := some (Json.str "A"), nickname := Json.str "N",
        openid := Json.str "I", token := "t", email := none } rfl,
   avatar_round_trip.2.1 "t" githubPayload
      { metadata := githubPayload, picture := some (Json.str "A"), nickname := Json.str "N",
        openid := Json.str "I", token := "t", email := none } rfl,
   avatar_round_trip.2.2.1 true "t" googlePayload
      { metadata := googlePayload, picture := some (Json.str "A"), nickname := Json.str "N",
        openid := Json.str "I", token := "t", email := some (Json.str "e@x.com") } rfl,
   avatar_round_trip.2.2.2.1 "t" facebookPayload
      { metadata := facebookPayload, picture := some (Json.str "U"), nickname := Json.str "N",
        openid := Json.str "I", token := "t", email := none } rfl rfl,
   avatar_round_trip.2.2.2.2 "t" (some "O") qqPayload
      { metadata := qqPayload, picture := some (Json.str "F"), nickname := Json.str "N",
        openid := Json.str "O", token := "t", email := none } rfl⟩

end DjangoBlogSpec
